import Mathlib

/-!
Verification of the voice-integrity cheating-detection core
(`src/api/voice_integrity/` of the repository).

All Python floats are modelled as rationals (`ℚ`); the decimal constants of
the source are exactly representable, and every comparison the claims touch
is between such constants, so the `ℚ` model agrees with IEEE evaluation on
the relevant paths.  `np.sqrt` (used only for RMS energies and standard
deviations) is irrational-valued, so functions whose results depend on it
take the square-root routine as an explicit parameter `sqrt : ℚ → ℚ`;
every theorem below either quantifies over `sqrt` or sits on a code path
that never evaluates it.  Python exceptions are modelled by `Option`/sum
results.
-/

namespace VoiceIntegrity

/-- `min 1.0 x`, the upper clamp the source applies to risk scores. -/
def clamp1 (x : ℚ) : ℚ := min 1 x

/-- `max 0.0 (min 1.0 x)`, the two-sided clamp. -/
def clamp01 (x : ℚ) : ℚ := max 0 (min 1 x)

/-! ## `cheating_classifier.py` — data model -/

/-- `CheatingSample` (cheating_classifier.py, lines 43-82): the fixed-schema
feature record.  Counts are `ℤ` (Python ints), scores are `ℚ`, flags `Bool`;
the string metadata fields are carried verbatim. -/
structure CheatingSample where
  speech_ratio : ℚ := 0
  silence_periods : ℤ := 0
  voice_confidence : ℚ := 0
  help_seeking_phrases : ℤ := 0
  answer_receiving_phrases : ℤ := 0
  question_reading : Bool := false
  external_discussion : Bool := false
  speech_rate : ℚ := 0
  pause_frequency : ℚ := 0
  total_speakers : ℤ := 1
  speaker_switches : ℤ := 0
  primary_speaker_ratio : ℚ := 1
  overlapping_speech : ℚ := 0
  stress_level : ℚ := 0
  anxiety_level : ℚ := 0
  deception_indicators_count : ℤ := 0
  emotion_confidence : ℚ := 0
  audio_quality_score : ℚ := 1
  background_noise : ℚ := 0
  potential_recording : Bool := false
  is_cheating : Bool := false
  session_id : String := ""
  timestamp : String := ""
deriving Repr, DecidableEq

/-- The risk-by-category dictionary returned by
`CheatingClassifier._get_risk_breakdown` (its five fixed keys). -/
structure RiskBreakdown where
  content_risk : ℚ
  speaker_risk : ℚ
  emotion_risk : ℚ
  quality_risk : ℚ
  behavioral_risk : ℚ
deriving Repr, DecidableEq

/-- `CheatingClassifier._get_risk_breakdown` (lines 587-595).  `float(bool)`
is 1 or 0; `max(0, total_speakers - 1)` is over ints then scaled. -/
def get_risk_breakdown (s : CheatingSample) : RiskBreakdown :=
  { content_risk := min 1 (((s.help_seeking_phrases + s.answer_receiving_phrases : ℤ) : ℚ) * (2/10))
    speaker_risk := min 1 (((max 0 (s.total_speakers - 1) : ℤ) : ℚ) * (5/10))
    emotion_risk := min 1 ((s.stress_level + s.anxiety_level) / 2)
    quality_risk := min 1 ((1 - s.audio_quality_score) + (if s.potential_recording then 1 else 0))
    behavioral_risk := min 1 (s.pause_frequency * (5/10)) }

/-- `CheatingPrediction` (lines 84-100).  The evidence summary is a verbatim
re-packaging of the sample's fields, so the sample itself is carried. -/
structure CheatingPrediction where
  is_cheating : Bool
  confidence : ℚ
  probability : ℚ
  risk_score : ℚ
  contributing_factors : List String
  risk_breakdown : RiskBreakdown
  evidence_sample : CheatingSample
  model_used : String
deriving Repr, DecidableEq

/-- `CheatingClassifier._get_rule_based_prediction` (lines 454-506): the
additive rule-based fallback prediction. -/
def get_rule_based_prediction (s : CheatingSample) : CheatingPrediction :=
  let r1 : ℚ := if s.help_seeking_phrases > 0 then 4/10 else 0
  let f1 : List String :=
    if s.help_seeking_phrases > 0 then
      ["Help-seeking phrases (" ++ toString s.help_seeking_phrases ++ ")"] else []
  let r2 : ℚ := if s.answer_receiving_phrases > 0 then 5/10 else 0
  let f2 : List String :=
    if s.answer_receiving_phrases > 0 then
      ["Answer-receiving phrases (" ++ toString s.answer_receiving_phrases ++ ")"] else []
  let r3 : ℚ := if s.external_discussion then 3/10 else 0
  let f3 : List String := if s.external_discussion then ["External discussion detected"] else []
  let r4 : ℚ := if s.total_speakers > 1 then 3/10 else 0
  let f4 : List String :=
    if s.total_speakers > 1 then
      ["Multiple speakers (" ++ toString s.total_speakers ++ ")"] else []
  let r5 : ℚ := if s.stress_level > 7/10 then 2/10 else 0
  let f5 : List String := if s.stress_level > 7/10 then ["High stress levels"] else []
  let r6 : ℚ := if s.deception_indicators_count > 2 then 2/10 else 0
  let f6 : List String :=
    if s.deception_indicators_count > 2 then ["Multiple deception indicators"] else []
  let r7 : ℚ := if s.potential_recording then 3/10 else 0
  let f7 : List String := if s.potential_recording then ["Potential pre-recorded audio"] else []
  let risk_score := clamp1 (r1 + r2 + r3 + r4 + r5 + r6 + r7)
  let probability := risk_score
  { is_cheating := probability > 1/2
    confidence := max probability (1 - probability) * (8/10)
    probability := probability
    risk_score := risk_score
    contributing_factors := f1 ++ f2 ++ f3 ++ f4 ++ f5 ++ f6 ++ f7
    risk_breakdown := get_risk_breakdown s
    evidence_sample := s
    model_used := "Rule-based (fallback)" }

/-- `CheatingClassifier.predict_cheating` (lines 380-393): dispatch between
the trained ML path and the rule-based fallback.  The ML ensemble is an
external sklearn object, so the trained path is a parameter `mlPath`; the
dispatch condition `not self.is_trained or not SKLEARN_AVAILABLE` is from
the source. -/
def predict_cheating (mlPath : CheatingSample → CheatingPrediction)
    (is_trained sklearn_available : Bool) (s : CheatingSample) : CheatingPrediction :=
  if ¬is_trained ∨ ¬sklearn_available then get_rule_based_prediction s
  else mlPath s

/-! ## `cheating_classifier.py` — model persistence (`load_model`) -/

/-- `CheatingClassifier._get_feature_names` (lines 173-184): the current
20-feature schema. -/
def get_feature_names : List String :=
  ["speech_ratio", "silence_periods", "voice_confidence",
   "help_seeking_phrases", "answer_receiving_phrases",
   "question_reading", "external_discussion",
   "speech_rate", "pause_frequency",
   "total_speakers", "speaker_switches", "primary_speaker_ratio",
   "overlapping_speech", "stress_level", "anxiety_level",
   "deception_indicators_count", "emotion_confidence",
   "audio_quality_score", "background_noise", "potential_recording"]

/-- The joblib blob written by `save_model` / read by `load_model`.  The
fitted estimator and scaler objects are opaque (type parameters `M`, `S`);
`Option` on each slot models presence of the dict key (a missing key makes
the dict access raise `KeyError`, which `load_model` re-raises).  The
metrics/importance payloads are opaque (`Mx`, `Fi`). -/
structure ModelBlob (M S Mx Fi : Type) where
  rf_model : Option M
  gb_model : Option M
  lr_model : Option M
  feature_scaler : Option S
  feature_names : Option (List String)
  model_metrics : Option Mx
  feature_importance : Option Fi

/-- The classifier state touched by `load_model`. -/
structure ClassifierModelState (M S Mx Fi : Type) where
  rf_model : Option M
  gb_model : Option M
  lr_model : Option M
  feature_scaler : Option S
  feature_names : List String
  model_metrics : Option Mx
  feature_importance : Option Fi
  is_trained : Bool

/-- `CheatingClassifier.load_model` (lines 728-750).  It reads the seven
keys from the blob and installs them verbatim — there is no comparison of
the stored feature-name list against the current schema; the only failure
modes are sklearn being unavailable and a missing key (`KeyError`
re-raised by the bare `raise`). -/
def load_model {M S Mx Fi : Type} (sklearn_available : Bool)
    (st : ClassifierModelState M S Mx Fi) (blob : ModelBlob M S Mx Fi) :
    Except String (ClassifierModelState M S Mx Fi) :=
  if ¬sklearn_available then .error "scikit-learn required for loading models"
  else
    match blob.rf_model, blob.gb_model, blob.lr_model, blob.feature_scaler,
        blob.feature_names, blob.model_metrics, blob.feature_importance with
    | some rf, some gb, some lr, some sc, some names, some mx, some fi =>
        .ok { st with
          rf_model := some rf, gb_model := some gb, lr_model := some lr,
          feature_scaler := some sc, feature_names := names,
          model_metrics := some mx, feature_importance := some fi,
          is_trained := true }
    | _, _, _, _, _, _, _ => .error "KeyError"

/-! ## `behavioral_analyzer.py` — pattern matching primitives

The content analysis uses `re.finditer` over ten fixed patterns, each of the
shape `\b(alt|alt|…)` where every alternative is a sequence of literal
words joined by `\s+` (character classes `[abcd]`/`[1234]` are expanded
into one alternative per character, in order, which reproduces the
engine's backtracking order).  The engine below implements exactly that
fragment: `\b` via the word-character class, greedy `\s+` (maximal run — a
shorter run is never retried because every following literal starts with a
non-space character), alternatives tried left to right, and non-overlapping
left-to-right scanning.  `\w`/`\s` are ASCII-exact; codepoints ≥ 128 are
treated as word characters and non-spaces (the Unicode classes of Python's
`re` agree with this on every script the phrase lists use). -/

/-- Python `\w` (see header): ASCII alphanumerics, underscore, and any
non-ASCII codepoint. -/
def isWordCharP (c : Char) : Bool := c.isAlphanum || c = '_' || 128 ≤ c.toNat

/-- Python `\s`, ASCII part. -/
def isSpaceCharP (c : Char) : Bool :=
  c = ' ' || c = '\t' || c = '\n' || c = '\r' || c = '\x0b' || c = '\x0c'

/-- Outcome of matching one alternative at a fixed position: success with
the remaining suffix, a mismatch on a character inside the text (`hard`),
or running off the end of the text (`eoi`). -/
inductive MRes where
  | ok (rest : List Char)
  | hard
  | eoi
deriving DecidableEq, Repr

/-- Match a literal word (no backtracking). -/
def matchWordX : List Char → List Char → MRes
  | [], t => .ok t
  | _ :: _, [] => .eoi
  | c :: w, d :: t => if d = c then matchWordX w t else .hard

/-- Match `\s+`: at least one space character, consuming the maximal run. -/
def matchSpacesX : List Char → MRes
  | [] => .eoi
  | c :: t => if isSpaceCharP c then .ok (t.dropWhile isSpaceCharP) else .hard

/-- Match one alternative: its words in order, separated by `\s+`. -/
def matchAltX : List (List Char) → List Char → MRes
  | [], t => .ok t
  | w :: ws, t =>
    match matchWordX w t with
    | .ok t1 =>
      match ws with
      | [] => .ok t1
      | _ :: _ =>
        match matchSpacesX t1 with
        | .ok t2 => matchAltX ws t2
        | .hard => .hard
        | .eoi => .eoi
    | .hard => .hard
    | .eoi => .eoi

/-- Try the alternatives of a pattern in order; first success wins. -/
def firstOkAlt : List (List (List Char)) → List Char → Option (List Char)
  | [], _ => none
  | a :: as, t =>
    match matchAltX a t with
    | .ok r => some r
    | _ => firstOkAlt as t

/-- `re.finditer` match count for one `\b(…)` pattern: scan left to right,
attempting only at `\b` boundaries (`prev` holds the word-character class
of the preceding character; `false` at the start of the string), and resume
after the end of each match. -/
def scanCount (p : List (List (List Char))) : Bool → List Char → ℕ
  | _, [] => 0
  | prev, c :: rest =>
    match (if prev ≠ isWordCharP c then firstOkAlt p (c :: rest) else none) with
    | some rem =>
      let k := max 1 ((c :: rest).length - rem.length)
      1 + scanCount p (isWordCharP (((c :: rest).take k).getLastD c)) ((c :: rest).drop k)
    | none => scanCount p (isWordCharP c) rest
  termination_by _ t => t.length
  decreasing_by
    · simp only [List.length_drop]
      exact Nat.sub_lt (Nat.succ_pos _) (Nat.lt_of_lt_of_le Nat.zero_lt_one (le_max_left _ _))
    · simp [Nat.lt_succ_self]

/-! ## `behavioral_analyzer.py` — phrase and pattern databases -/

/-- The apostrophe character (several phrase-list entries contain it). -/
def apoc : Char := Char.ofNat 39

/-- String form of the apostrophe. -/
def apoStr : String := String.mk [apoc]

/-- `BehavioralAnalyzer._load_suspicious_phrases` (lines 106-150): exact
substrings checked with `in` on the lower-cased transcription. -/
def suspiciousPhrases : List (List Char) :=
  (["what is the answer", "help me with", "tell me", "can you help",
    "what should i write", "give me the answer", "how do i solve",
    "what" ++ apoStr ++ "s the solution",
    "i don" ++ apoStr ++ "t know this",
    "can you do this", "google it", "search for", "look it up",
    "check online", "ask someone", "call someone", "text someone",
    "जवाब क्या है", "मदद करो", "बताओ", "हल क्या है", "उत्तर दो",
    "यह कैसे करते हैं", "गूगल करो",
    "উত্তর কি", "সাহায্য করো", "বলো", "সমাধান কি",
    "జవాబు ఏమిటి", "సహాయం చేయి", "చెప్పు", "పరిష్కారం ఏమిటి",
    "பதில் என்ன", "உதவி செய்", "சொல்லு", "தீர்வு என்ன"]).map String.toList

/-- Cartesian product of two word groups, in the backtracking order of the
regex engine (first group major). -/
def altProd (g1 g2 : List String) : List (List (List Char)) :=
  g1.flatMap fun a => g2.map fun b => [a.toList, b.toList]

/-- `_load_help_seeking_patterns` (lines 152-160), pattern 1:
`\b(what|how|where|when|why)\s+(is|are|do|does|should|would|can|could)`. -/
def helpPat1 : List (List (List Char)) :=
  altProd ["what", "how", "where", "when", "why"]
    ["is", "are", "do", "does", "should", "would", "can", "could"]

/-- Help pattern 2: `\b(help|assist|guide|show)\s+(me|us)`. -/
def helpPat2 : List (List (List Char)) :=
  altProd ["help", "assist", "guide", "show"] ["me", "us"]

/-- Help pattern 3: `\b(i\s+don't\s+know|i\s+need\s+help|i'm\s+stuck)`. -/
def helpPat3 : List (List (List Char)) :=
  [[String.toList "i", String.toList ("don" ++ apoStr ++ "t"), String.toList "know"],
   [String.toList "i", String.toList "need", String.toList "help"],
   [String.toList ("i" ++ apoStr ++ "m"), String.toList "stuck"]]

/-- Help pattern 4: `\b(can\s+you|could\s+you|will\s+you|would\s+you)`. -/
def helpPat4 : List (List (List Char)) :=
  [["can", "you"], ["could", "you"], ["will", "you"], ["would", "you"]].map
    (List.map String.toList)

/-- Help pattern 5: `\b(tell\s+me|show\s+me|give\s+me)`. -/
def helpPat5 : List (List (List Char)) :=
  [["tell", "me"], ["show", "me"], ["give", "me"]].map (List.map String.toList)

/-- The five help-seeking regex patterns, in source order. -/
def helpSeekingPatterns : List (List (List (List Char))) :=
  [helpPat1, helpPat2, helpPat3, helpPat4, helpPat5]

/-- `_load_answer_patterns` (lines 162-170), pattern 1:
`\b(the\s+answer\s+is|it\s+is|it's)`. -/
def ansPat1 : List (List (List Char)) :=
  [[String.toList "the", String.toList "answer", String.toList "is"],
   [String.toList "it", String.toList "is"],
   [String.toList ("it" ++ apoStr ++ "s")]]

/-- Answer pattern 2: `\b(you\s+should|try\s+this|write\s+this)`. -/
def ansPat2 : List (List (List Char)) :=
  [["you", "should"], ["try", "this"], ["write", "this"]].map (List.map String.toList)

/-- Answer pattern 3: `\b(option\s+[abcd]|choice\s+[1234])` (classes
expanded alternative-by-alternative in engine order). -/
def ansPat3 : List (List (List Char)) :=
  altProd ["option"] ["a", "b", "c", "d"] ++ altProd ["choice"] ["1", "2", "3", "4"]

/-- Answer pattern 4: `\b(correct\s+answer|right\s+answer)`. -/
def ansPat4 : List (List (List Char)) :=
  [["correct", "answer"], ["right", "answer"]].map (List.map String.toList)

/-- Answer pattern 5: `\b(just\s+write|simply\s+put|the\s+solution)`. -/
def ansPat5 : List (List (List Char)) :=
  [["just", "write"], ["simply", "put"], ["the", "solution"]].map (List.map String.toList)

/-- The five answer-receiving regex patterns, in source order. -/
def answerPatterns : List (List (List (List Char))) :=
  [ansPat1, ansPat2, ansPat3, ansPat4, ansPat5]

/-- `str.lower()` per character (ASCII-exact; identity beyond ASCII — every
non-ASCII script in the databases is caseless, where this is also exact). -/
def lowerChar (c : Char) : Char := c.toLower

/-- The third-party-reference markers of `analyze_content` (lines 304-315). -/
def externalIndicators : List (List Char) :=
  (["he said", "she said", "they said", "someone said", "person said",
    "friend said", "teacher said"]).map String.toList

/-- The interrogative words of the question-reading regex
`\?.*\b(is|are|what|how|where|when|why)` (line 300). -/
def qWords : List (List Char) :=
  (["is", "are", "what", "how", "where", "when", "why"]).map String.toList

/-- `re.search(r"\?.*\b(is|are|what|how|where|when|why)", t)`: a `?`
followed — with no intervening newline, since `.` excludes `\n` — by a
word boundary and one of the interrogative words.  `seenQ` records whether
a `?` occurred on the current line; `prev` the word-class of the previous
character. -/
def questionReadingAux : Bool → Bool → List Char → Bool
  | _, _, [] => false
  | seenQ, prev, c :: rest =>
    if seenQ ∧ prev ≠ isWordCharP c ∧ qWords.any (fun w => w.isPrefixOf (c :: rest)) then
      true
    else
      questionReadingAux (if c = '?' then true else if c = '\n' then false else seenQ)
        (isWordCharP c) rest

/-- Result record of `BehavioralAnalyzer.analyze_content` (the
`suspicious_phrase_details` list is diagnostic only and does not feed any
downstream value, so it is not carried). -/
structure ContentAnalysis where
  question_reading_detected : Bool
  help_seeking_phrases : ℕ
  answer_receiving_phrases : ℕ
  external_discussion : Bool
deriving Repr, DecidableEq

/-- `BehavioralAnalyzer.analyze_content` (lines 230-323). -/
def analyze_content (t : List Char) : ContentAnalysis :=
  if t.isEmpty then
    { question_reading_detected := false, help_seeking_phrases := 0,
      answer_receiving_phrases := 0, external_discussion := false }
  else
    let low := t.map lowerChar
    { question_reading_detected := questionReadingAux false false t
      help_seeking_phrases :=
        suspiciousPhrases.countP (fun ph => decide ((ph.map lowerChar) <:+: low)) +
          (helpSeekingPatterns.map (fun p => scanCount p false low)).sum
      answer_receiving_phrases := (answerPatterns.map (fun p => scanCount p false low)).sum
      external_discussion := externalIndicators.any (fun ph => decide (ph <:+: low)) }

/-! ## numeric helpers (numpy mean / variance over `ℚ`) -/

/-- `np.mean` over rationals.  On the empty list ℚ-division by zero yields
`0` (numpy yields NaN there; every use below is guarded exactly as the
source guards it, so the empty case is never relied upon). -/
def meanQ (l : List ℚ) : ℚ := l.sum / l.length

/-- Population variance, so that `np.std l = sqrt (varianceQ l)`. -/
def varianceQ (l : List ℚ) : ℚ := meanQ (l.map fun x => (x - meanQ l) ^ 2)

/-- `np.sign` (on rationals). -/
def signQ (x : ℚ) : ℤ := if x > 0 then 1 else if x < 0 then -1 else 0

/-- `np.sum(np.diff(np.sign(x)) != 0)`: adjacent sign changes. -/
def countSignChanges (l : List ℚ) : ℕ :=
  ((l.zip l.tail).filter fun ab => signQ ab.1 ≠ signQ ab.2).length

/-! ## `behavioral_analyzer.py` — speech patterns, audio quality, temporal -/

/-- One element of the `speech_segments` list (dict with `start_time`,
`end_time`, `duration` keys). -/
structure SpeechSegment where
  start_time : ℚ := 0
  end_time : ℚ := 0
  duration : ℚ := 0
deriving Repr, DecidableEq

/-- The dict returned by `analyze_speech_patterns`. -/
structure SpeechPatternResult where
  speech_rate : ℚ
  pause_frequency : ℚ
  average_pause_duration : ℚ
  speech_consistency : ℚ
deriving Repr, DecidableEq

/-- The positive gaps between consecutive segments (lines 201-208). -/
def pauseDurations (segs : List SpeechSegment) : List ℚ :=
  (segs.zip segs.tail).filterMap fun ab =>
    let d := ab.2.start_time - ab.1.end_time
    if d > 0 then some d else none

/-- `BehavioralAnalyzer.analyze_speech_patterns` (lines 172-228).  `sqrt`
is the `np.sqrt` backend used inside `np.std`. -/
def analyze_speech_patterns (sqrt : ℚ → ℚ) (segs : List SpeechSegment) :
    SpeechPatternResult :=
  if segs.isEmpty then ⟨0, 0, 0, 0⟩
  else
    let total := (segs.map (·.duration)).sum
    let estimated_words := total * (5/2)
    let speech_rate := if total > 0 then estimated_words / total * 60 else 0
    let pauses := pauseDurations segs
    let pause_frequency := if total > 0 then (pauses.length : ℚ) / total else 0
    let avg_pause := if pauses.isEmpty then 0 else meanQ pauses
    let durs := segs.map (·.duration)
    let consistency :=
      1 - (if ¬durs.isEmpty ∧ meanQ durs > 0 then sqrt (varianceQ durs) / meanQ durs else 0)
    ⟨speech_rate, pause_frequency, avg_pause, clamp01 consistency⟩

/-- The dict returned by `analyze_audio_quality`; `snr` is absent (`none`)
in the empty-input branch (Python's dict simply lacks the key there). -/
structure AudioQualityResult where
  background_noise_level : ℚ
  audio_quality_score : ℚ
  potential_recording : Bool
  snr : Option ℚ
deriving Repr, DecidableEq

/-- `BehavioralAnalyzer.analyze_audio_quality` (lines 325-382).
`recordingDetector` is the librosa spectral heuristic of lines 357-375
(constantly `false` when librosa is unavailable or raises).  The
noise level of a buffer of fewer than ten samples is NaN in numpy (mean of
an empty slice) and is modelled as `0` — both sides put such a buffer in
the `noise_level > 0`-false branch, and no claim touches the noise field
there.  A zero noise level makes `snr` `float('inf')`, for which the dict
stores `100.0` and the quality score is `min(1.0, inf/10) = 1.0`. -/
def analyze_audio_quality (recordingDetector : List ℚ → Bool) (audio : List ℚ) :
    AudioQualityResult :=
  if audio.isEmpty then ⟨0, 1, false, none⟩
  else
    let sorted := (audio.map fun x => |x|).mergeSort (· ≤ ·)
    let noise := meanQ (sorted.take (audio.length / 10))
    let signal := meanQ (audio.map fun x => |x|)
    let recording := recordingDetector audio
    if noise > 0 then
      let snr := signal / noise
      ⟨noise, min 1 (snr / 10), recording, some snr⟩
    else ⟨noise, 1, recording, some 100⟩

/-- One element of the `voice_events` list. -/
structure VoiceEvent where
  timestamp : ℚ := 0
  is_speech : Bool := false
  rms_energy : ℚ := 0
deriving Repr, DecidableEq

/-- The silence-run counter of `analyze_temporal_patterns` (lines 407-416):
a run of more than 30 consecutive non-speech flags, counted when the next
speech flag arrives. -/
def countUnusualSilences (flags : List Bool) : ℕ :=
  (flags.foldl
    (fun (st : ℕ × ℕ) s =>
      if s then (st.1 + (if st.2 > 30 then 1 else 0), 0) else (st.1, st.2 + 1))
    (0, 0)).1

/-- The burst counter of lines 418-426: windows of 10 flags starting at
`i ∈ range (len - 10)` with more than 8 speech flags. -/
def countRapidBursts (flags : List Bool) : ℕ :=
  ((List.range (flags.length - 10)).filter fun i =>
    ((flags.drop i).take 10).countP id > 8).length

/-- The dict returned by `analyze_temporal_patterns`. -/
structure TemporalPatterns where
  unusual_silence_periods : ℕ
  rapid_speech_bursts : ℕ
  inconsistent_volume : Bool
deriving Repr, DecidableEq

/-- `BehavioralAnalyzer.analyze_temporal_patterns` (lines 384-440). -/
def analyze_temporal_patterns (sqrt : ℚ → ℚ) (events : List VoiceEvent) :
    TemporalPatterns :=
  if events.isEmpty then ⟨0, 0, false⟩
  else
    let flags := events.map (·.is_speech)
    let volumes := events.map (·.rms_energy)
    let inconsistent :=
      if ¬volumes.isEmpty ∧ volumes.length > 10 then
        (if meanQ volumes > 0 then sqrt (varianceQ volumes) / meanQ volumes else 0) > 1/2
      else false
    ⟨countUnusualSilences flags, countRapidBursts flags, inconsistent⟩

/-- `BehavioralMetrics` (lines 35-63). -/
structure BehavioralMetrics where
  speech_rate : ℚ := 0
  pause_frequency : ℚ := 0
  average_pause_duration : ℚ := 0
  speech_consistency : ℚ := 0
  question_reading_detected : Bool := false
  help_seeking_phrases : ℤ := 0
  answer_receiving_phrases : ℤ := 0
  external_discussion : Bool := false
  background_noise_level : ℚ := 0
  audio_quality_score : ℚ := 1
  potential_recording : Bool := false
  unusual_silence_periods : ℤ := 0
  rapid_speech_bursts : ℤ := 0
  inconsistent_volume : Bool := false
  overall_confidence : ℚ := 0
deriving Repr, DecidableEq

/-- The additive risk total of `calculate_overall_risk_score`
(lines 454-510), before the factor strings, with the final
`min(1.0, ·)` clamp. -/
def behavioralRiskScore (m : BehavioralMetrics) : ℚ :=
  clamp1 ((if m.help_seeking_phrases > 0 then 3/10 else 0) +
    (if m.answer_receiving_phrases > 0 then 4/10 else 0) +
    (if m.external_discussion then 3/10 else 0) +
    (if m.question_reading_detected then 2/10 else 0) +
    (if m.potential_recording then 15/100 else 0) +
    (if m.audio_quality_score < 3/10 then 15/100 else 0) +
    (if m.unusual_silence_periods > 2 then 2/10 else 0) +
    (if m.rapid_speech_bursts > 3 then 15/100 else 0) +
    (if m.inconsistent_volume then 2/10 else 0) +
    (if m.speech_rate > 200 ∨ m.speech_rate < 50 then 1/10 else 0) +
    (if m.speech_consistency < 3/10 then 1/10 else 0))

/-- The risk-factor strings accumulated alongside the score. -/
def behavioralRiskFactors (m : BehavioralMetrics) : List String :=
  (if m.help_seeking_phrases > 0 then ["Help-seeking phrases detected"] else []) ++
  (if m.answer_receiving_phrases > 0 then ["Answer-receiving phrases detected"] else []) ++
  (if m.external_discussion then ["External discussion detected"] else []) ++
  (if m.question_reading_detected then ["Question reading to others detected"] else []) ++
  (if m.potential_recording then ["Potential pre-recorded audio detected"] else []) ++
  (if m.audio_quality_score < 3/10 then ["Poor audio quality (possible manipulation)"] else []) ++
  (if m.unusual_silence_periods > 2 then ["Unusual silence patterns"] else []) ++
  (if m.rapid_speech_bursts > 3 then ["Rapid speech burst patterns"] else []) ++
  (if m.inconsistent_volume then ["Inconsistent volume (multiple speakers?)"] else []) ++
  (if m.speech_rate > 200 ∨ m.speech_rate < 50 then ["Unusual speech rate"] else []) ++
  (if m.speech_consistency < 3/10 then ["Inconsistent speech patterns"] else [])

/-- `BehavioralAnalyzer.calculate_overall_risk_score` (lines 442-512). -/
def calculate_overall_risk_score (m : BehavioralMetrics) : ℚ × List String :=
  (behavioralRiskScore m, behavioralRiskFactors m)

/-- `BehavioralAnalyzer.analyze_behavior` (lines 514-582): assemble the
metrics from the four sub-analyses and set
`overall_confidence = 1 - risk_score`.  (The in-memory history append and
the timestamp are session bookkeeping and carry no analysed value.) -/
def analyze_behavior (sqrt : ℚ → ℚ) (recordingDetector : List ℚ → Bool)
    (audio : List ℚ) (transcription : List Char)
    (segs : List SpeechSegment) (events : List VoiceEvent) : BehavioralMetrics :=
  let sp := analyze_speech_patterns sqrt segs
  let ca := analyze_content transcription
  let aq := analyze_audio_quality recordingDetector audio
  let tp := analyze_temporal_patterns sqrt events
  let m : BehavioralMetrics :=
    { speech_rate := sp.speech_rate
      pause_frequency := sp.pause_frequency
      average_pause_duration := sp.average_pause_duration
      speech_consistency := sp.speech_consistency
      question_reading_detected := ca.question_reading_detected
      help_seeking_phrases := (ca.help_seeking_phrases : ℤ)
      answer_receiving_phrases := (ca.answer_receiving_phrases : ℤ)
      external_discussion := ca.external_discussion
      background_noise_level := aq.background_noise_level
      audio_quality_score := aq.audio_quality_score
      potential_recording := aq.potential_recording
      unusual_silence_periods := (tp.unusual_silence_periods : ℤ)
      rapid_speech_bursts := (tp.rapid_speech_bursts : ℤ)
      inconsistent_volume := tp.inconsistent_volume
      overall_confidence := 0 }
  { m with overall_confidence := 1 - (calculate_overall_risk_score m).1 }

/-! ## `emotion_analyzer.py` -/

/-- The dict of `_get_basic_prosodic_features`. -/
structure ProsodicFeatures where
  pitch_mean : ℚ
  pitch_std : ℚ
  pitch_range : ℚ
  energy_mean : ℚ
  energy_std : ℚ
  energy_contour : List ℚ
  zcr_mean : ℚ
  jitter : ℚ
  shimmer : ℚ
deriving Repr, DecidableEq

/-- `EmotionAnalyzer._get_basic_prosodic_features` (lines 234-253).  On a
zero-length buffer `len(zero_crossings) / len(audio_data)` raises
`ZeroDivisionError` (division of a Python int by the int 0), modelled as
`none`. -/
def get_basic_prosodic_features (sqrt : ℚ → ℚ) (audio : List ℚ) :
    Option ProsodicFeatures :=
  if audio.isEmpty then none
  else
    let rms := sqrt (meanQ (audio.map fun x => x ^ 2))
    let zcr := (countSignChanges audio : ℚ) / audio.length
    some { pitch_mean := 150, pitch_std := 20, pitch_range := 100,
           energy_mean := rms, energy_std := rms * (3/10),
           energy_contour := [rms], zcr_mean := zcr,
           jitter := 1/100, shimmer := 3/100 }

/-- `EmotionalFeatures` (lines 51-81). -/
structure EmotionalFeatures where
  pitch_mean : ℚ := 0
  pitch_std : ℚ := 0
  pitch_range : ℚ := 0
  energy_mean : ℚ := 0
  energy_std : ℚ := 0
  energy_contour : List ℚ := []
  speaking_rate : ℚ := 0
  pause_rate : ℚ := 0
  jitter : ℚ := 0
  shimmer : ℚ := 0
  spectral_centroid : ℚ := 0
  spectral_bandwidth : ℚ := 0
  spectral_rolloff : ℚ := 0
  mfcc_features : List ℚ := []
deriving Repr, DecidableEq

/-- The probability dict over the fixed 7-emotion label set (a missing key
reads as 0 via `.get(·, 0)`; the fixed key set makes a record exact). -/
structure EmotionProbs where
  neutral : ℚ := 0
  happy : ℚ := 0
  sad : ℚ := 0
  angry : ℚ := 0
  fear : ℚ := 0
  surprise : ℚ := 0
  disgust : ℚ := 0
deriving Repr, DecidableEq

/-- `EmotionAnalyzer._calculate_stress_level` (lines 496-516). -/
def calculate_stress_level (f : EmotionalFeatures) (p : EmotionProbs) : ℚ :=
  min 1 ((if f.pitch_std > 30 then 3/10 else 0) +
    (if f.speaking_rate > 6 then 2/10 else 0) +
    (if f.energy_std > 5/100 then 2/10 else 0) +
    p.angry * (5/10) + p.fear * (6/10) + p.sad * (3/10))

/-- `EmotionAnalyzer._calculate_anxiety_level` (lines 518-538). -/
def calculate_anxiety_level (f : EmotionalFeatures) (p : EmotionProbs) : ℚ :=
  min 1 ((if f.jitter > 2/100 then 3/10 else 0) +
    (if f.pause_rate > 1 then 2/10 else 0) +
    (if f.speaking_rate < 2 then 2/10 else 0) +
    p.fear * (7/10) + p.surprise * (3/10) + p.sad * (4/10))

/-- `EmotionAnalyzer._identify_deception_indicators` (lines 540-570). -/
def identify_deception_indicators (f : EmotionalFeatures) (p : EmotionProbs) :
    List String :=
  (if f.jitter > 25/1000 then ["High voice instability (jitter)"] else []) ++
  (if f.shimmer > 5/100 then ["High amplitude instability (shimmer)"] else []) ++
  (if f.pause_rate > 8/10 then ["Excessive pausing (thinking time)"] else []) ++
  (if f.speaking_rate < 5/2 then ["Unusually slow speech"] else []) ++
  (if f.pitch_std > 40 then ["Highly variable pitch (nervous)"] else []) ++
  (if p.fear > 4/10 then ["High fear response"] else []) ++
  (if p.surprise > 3/10 then ["Unexpected emotional response"] else [])

/-- `EmotionPrediction` (lines 83-91). -/
structure EmotionPrediction where
  emotion : String
  confidence : ℚ
  probabilities : EmotionProbs
  stress_level : ℚ
  anxiety_level : ℚ
  deception_indicators : List String
deriving Repr, DecidableEq

/-- `EmotionAnalyzer._get_fallback_emotion_prediction` (lines 572-594). -/
def get_fallback_emotion_prediction (f : EmotionalFeatures) : EmotionPrediction :=
  let emotion :=
    if f.energy_mean > 5/100 ∧ f.pitch_mean > 200 then
      (if f.pitch_std > 30 then "angry" else "happy")
    else if f.energy_mean < 2/100 then "sad"
    else if f.pitch_std > 40 then "fear"
    else "neutral"
  let pr (name : String) : ℚ := if emotion = name then 7/10 else 1/10
  { emotion := emotion
    confidence := 6/10
    probabilities :=
      { neutral := pr "neutral", happy := pr "happy", sad := pr "sad",
        angry := pr "angry", fear := pr "fear", surprise := pr "surprise",
        disgust := pr "disgust" }
    stress_level := min 1 (f.energy_std * 10)
    anxiety_level := min 1 (f.jitter * 50)
    deception_indicators := [] }

/-- `EmotionAnalyzer._calculate_emotional_risk_score` (lines 681-697). -/
def calculate_emotional_risk_score (pred : EmotionPrediction) : ℚ :=
  min 1 (pred.stress_level * (4/10) + pred.anxiety_level * (3/10) +
    (pred.deception_indicators.length : ℚ) * (1/10) +
    pred.probabilities.fear * (3/10) + pred.probabilities.angry * (2/10))

/-! ## `speaker_detector.py` -/

/-- One labelled track of a pyannote `Annotation`
(`diarization.itertracks(yield_label=True)`); `stop` is the segment's
`end` attribute (a Lean keyword). -/
structure DiarTrack where
  start : ℚ
  stop : ℚ
  speaker : String
deriving Repr, DecidableEq

/-- `SpeakerSegment` (lines 43-51) minus the diagnostic `audio_features`
dict (RMS/ZCR of the slice; computed but never read downstream). -/
structure SpeakerSegmentR where
  speaker_id : String
  start_time : ℚ
  end_time : ℚ
  duration : ℚ
  confidence : ℚ
deriving Repr, DecidableEq

/-- `SpeakerAnalysis` (lines 53-63).  `fallback` models the extra
`'fallback': True` key that only `get_fallback_analysis` puts in its dict;
the dataclass produced by `analyze_speaker_patterns` has no such field
(`none`). -/
structure SpeakerAnalysis where
  total_speakers : ℕ
  primary_speaker_ratio : ℚ
  speaker_switches : ℕ
  overlapping_speech_duration : ℚ
  speaker_segments : List SpeakerSegmentR
  suspicious_patterns : List String
  confidence_score : ℚ
  fallback : Option Bool := none
deriving Repr, DecidableEq

/-- `SpeakerDetector._count_speaker_switches` (lines 298-308): adjacent
label changes. -/
def countSpeakerSwitches (tracks : List DiarTrack) : ℕ :=
  ((tracks.zip tracks.tail).filter fun ab => ab.1.speaker ≠ ab.2.speaker).length

/-- `SpeakerDetector._detect_overlapping_speech` (lines 310-332): summed
pairwise interval intersections of differently-labelled tracks. -/
def overlappingSpeechDuration : List DiarTrack → ℚ
  | [] => 0
  | a :: rest =>
    (rest.map fun b =>
      if a.speaker ≠ b.speaker then
        let os := max a.start b.start
        let oe := min a.stop b.stop
        if os < oe then oe - os else 0
      else 0).sum + overlappingSpeechDuration rest

/-- `SpeakerDetector._identify_suspicious_patterns` (lines 334-361). -/
def identifySuspiciousPatterns (total_speakers speaker_switches : ℕ)
    (primary_ratio overlapping : ℚ) : List String :=
  (if total_speakers > 1 then ["Multiple speakers detected"] else []) ++
  (if speaker_switches > 10 then ["Frequent speaker switches"] else []) ++
  (if total_speakers > 1 ∧ primary_ratio < 6/10 then
    ["No dominant speaker (potential collaboration)"] else []) ++
  (if overlapping > 5 then ["Overlapping speech detected"] else []) ++
  (if total_speakers = 2 ∧ speaker_switches > 5 then
    ["Rapid alternating speakers (potential coaching)"] else [])

/-- `SpeakerDetector._calculate_diarization_confidence` (lines 363-381). -/
def calculate_diarization_confidence (speakers switches : ℕ)
    (primary_ratio : ℚ) : ℚ :=
  clamp01 (1 - (if speakers > 2 then (1/10) * ((speakers : ℚ) - 2) else 0) -
    (if switches > 20 then 2/10 else 0) -
    (if speakers > 1 ∧ primary_ratio < 4/10 then 3/10 else 0))

/-- `SpeakerDetector.analyze_speaker_patterns` (lines 216-296).  The
`not diarization` guard fires for `None` and for an annotation with no
tracks (an empty pyannote `Annotation` is falsy), both giving the
zero-speaker analysis of lines 228-238. -/
def analyze_speaker_patterns (diar : Option (List DiarTrack)) : SpeakerAnalysis :=
  match diar with
  | none =>
    { total_speakers := 0, primary_speaker_ratio := 1, speaker_switches := 0,
      overlapping_speech_duration := 0, speaker_segments := [],
      suspicious_patterns := [], confidence_score := 0 }
  | some tracks =>
    if tracks.isEmpty then
      { total_speakers := 0, primary_speaker_ratio := 1, speaker_switches := 0,
        overlapping_speech_duration := 0, speaker_segments := [],
        suspicious_patterns := [], confidence_score := 0 }
    else
      let speakers := (tracks.map (·.speaker)).dedup
      let total_speakers := speakers.length
      let segments := tracks.map fun tr =>
        ({ speaker_id := tr.speaker, start_time := tr.start, end_time := tr.stop,
           duration := tr.stop - tr.start, confidence := 8/10 } : SpeakerSegmentR)
      let durOf := fun sp =>
        ((tracks.filter fun tr => tr.speaker = sp).map fun tr => tr.stop - tr.start).sum
      let durs := speakers.map durOf
      let total_duration := durs.sum
      let primary_duration := match durs with | [] => 0 | d :: ds => ds.foldl max d
      let primary_ratio := if total_duration > 0 then primary_duration / total_duration else 0
      let switches := countSpeakerSwitches tracks
      let overlapping := overlappingSpeechDuration tracks
      { total_speakers := total_speakers
        primary_speaker_ratio := primary_ratio
        speaker_switches := switches
        overlapping_speech_duration := overlapping
        speaker_segments := segments
        suspicious_patterns :=
          identifySuspiciousPatterns total_speakers switches primary_ratio overlapping
        confidence_score :=
          calculate_diarization_confidence total_speakers switches primary_ratio }

/-- `SpeakerDetector.perform_speaker_diarization` (lines 182-214): `None`
whenever the model is not loaded; otherwise the pluggable pyannote
backend (`None` also on backend failure). -/
def perform_speaker_diarization (model_loaded : Bool)
    (backend : List ℚ → Option (List DiarTrack)) (audio : List ℚ) :
    Option (List DiarTrack) :=
  if ¬model_loaded then none else backend audio

/-- The computational path of `SpeakerDetector.analyze_audio_async`
(lines 383-434): diarize, then analyze the patterns.  (The per-session
result cache and history list are keyed bookkeeping around this value.) -/
def analyze_audio_speaker (model_loaded : Bool)
    (backend : List ℚ → Option (List DiarTrack)) (audio : List ℚ) :
    SpeakerAnalysis :=
  analyze_speaker_patterns (perform_speaker_diarization model_loaded backend audio)

/-- The `[audio[i:i+cs] for i in range(0, len, cs)]` chunking (line 448). -/
def chunksOf (cs : ℕ) (l : List ℚ) : List (List ℚ) :=
  (List.range ((l.length + cs - 1) / cs)).map fun i => (l.drop (i * cs)).take cs

/-- `SpeakerDetector.get_fallback_analysis` (lines 436-471).  With fewer
than 10 samples `chunk_size = len(audio)//10 = 0` and
`range(0, len, 0)` raises `ValueError` (`none`).  When every chunk is
silent the mean energy is 0 and `np.std/np.mean` is NaN; `int(nan * 10)`
then raises too (`none`); with a positive mean energy the computation is
exact. -/
def get_fallback_analysis (sqrt : ℚ → ℚ) (audio : List ℚ) :
    Option SpeakerAnalysis :=
  let cs := audio.length / 10
  if cs = 0 then none
  else
    let chunks := chunksOf cs audio
    let energies := (chunks.filter fun c => c.length > 0).map
      fun c => sqrt (meanQ (c.map fun x => x ^ 2))
    if ¬energies.isEmpty ∧ meanQ energies = 0 then none
    else
      let energy_variation :=
        if energies.isEmpty then 0 else sqrt (varianceQ energies) / meanQ energies
      let estimated_speakers : ℕ := if energy_variation > 1/2 then 2 else 1
      some
        { total_speakers := estimated_speakers
          primary_speaker_ratio := if estimated_speakers = 1 then 8/10 else 6/10
          speaker_switches := (energy_variation * 10).floor.toNat
          overlapping_speech_duration := 0
          speaker_segments := []
          suspicious_patterns :=
            if estimated_speakers > 1 then ["Fallback analysis - limited accuracy"] else []
          confidence_score := 4/10
          fallback := some true }

/-! ## `real_time_processor.py` -/

/-- The per-chunk analysis dict of `VoiceProcessor.analyze_audio_chunk`. -/
structure ChunkAnalysis where
  is_speech : Bool
  silero_probability : ℚ
  webrtc_detected : Bool
  rms_energy : ℚ
  zero_crossing_rate : ℚ
  audio_length_seconds : ℚ
deriving Repr, DecidableEq

/-- One entry of `suspicious_events` (lines 237-242). -/
structure SuspiciousEvent where
  indicators : List String
  analysis : ChunkAnalysis
deriving Repr, DecidableEq

/-- The session-tracking state of `VoiceProcessor` (lines 63-85).
`session_start_time` is seconds on some clock (`None` before
`process_audio_stream` first runs). -/
structure ProcessorState where
  sample_rate : ℚ := 16000
  vad_threshold : ℚ := 1/2
  session_start_time : Option ℚ := none
  total_speech_time : ℚ := 0
  total_silence_time : ℚ := 0
  speech_events : List ChunkAnalysis := []
  suspicious_events : List SuspiciousEvent := []

/-- `VoiceProcessor.analyze_audio_chunk` (lines 175-219) together with
`_detect_suspicious_patterns` (lines 221-247), as a transition on the
processor state.  The chunk arrives as little-endian 16-bit PCM samples
(already split into `ℤ` sample values); `silero`/`webrtc` are the
pluggable VAD backends, `none` when unavailable (probability 0.0 / `False`
per `detect_voice_activity_silero`/`_webrtc`).  On the empty chunk numpy
produces NaN RMS/ZCR with a warning rather than raising; the modelled 0
values land in the same (non-suspicious) branches. -/
def analyze_audio_chunk_proc (sqrt : ℚ → ℚ) (silero : Option (List ℚ → ℚ))
    (webrtc : Option (List ℤ → Bool)) (st : ProcessorState) (samples : List ℤ) :
    ProcessorState × ChunkAnalysis :=
  let audio : List ℚ := samples.map fun v => (v : ℚ) / 32768
  let prob := match silero with | none => 0 | some f => f audio
  let webrtcDet := match webrtc with | none => false | some f => f samples
  let rms := sqrt (meanQ (audio.map fun x => x ^ 2))
  let zcr := (countSignChanges audio : ℚ) / audio.length
  let is_speech := prob > st.vad_threshold
  let alen := (audio.length : ℚ) / st.sample_rate
  let a : ChunkAnalysis :=
    { is_speech := is_speech, silero_probability := prob, webrtc_detected := webrtcDet,
      rms_energy := rms, zero_crossing_rate := zcr, audio_length_seconds := alen }
  let st1 :=
    if is_speech then { st with total_speech_time := st.total_speech_time + alen }
    else { st with total_silence_time := st.total_silence_time + alen }
  let inds :=
    (if is_speech ∧ rms < 1/100 then ["low_energy_speech"] else []) ++
    (if zcr > 3/10 then ["high_distortion"] else []) ++
    (if is_speech ≠ webrtcDet then ["vad_inconsistency"] else [])
  let st2 :=
    if inds.isEmpty then st1
    else { st1 with suspicious_events := st1.suspicious_events ++ [⟨inds, a⟩] }
  (st2, a)

/-- The summary dict of `VoiceProcessor.get_session_summary`
(lines 311-326); the static `device_used`/`models_available` entries are
configuration echoes and not carried. -/
structure SessionSummary where
  session_duration_seconds : ℚ
  total_speech_time : ℚ
  total_silence_time : ℚ
  speech_ratio : ℚ
  total_speech_events : ℕ
  suspicious_events_count : ℕ
  suspicious_events : List SuspiciousEvent
  average_speech_confidence : ℚ

/-- The two possible results of `get_session_summary`: the
`{'error': 'No active session'}` dict, or a real summary. -/
inductive SessionSummaryResult where
  | noSession
  | summary (s : SessionSummary)

/-- `VoiceProcessor.get_session_summary` (lines 299-326), with `now` the
wall clock read at the call. -/
def get_session_summary (st : ProcessorState) (now : ℚ) : SessionSummaryResult :=
  match st.session_start_time with
  | none => .noSession
  | some t0 =>
    let dur := now - t0
    .summary
      { session_duration_seconds := dur
        total_speech_time := st.total_speech_time
        total_silence_time := st.total_silence_time
        speech_ratio := if dur > 0 then st.total_speech_time / dur else 0
        total_speech_events := st.speech_events.length
        suspicious_events_count := st.suspicious_events.length
        suspicious_events := st.suspicious_events
        average_speech_confidence :=
          if st.speech_events.isEmpty then 0
          else meanQ (st.speech_events.map (·.silero_probability)) }

/-! ## `websocket_handler.py` — sessions and the shared processor -/

/-- The per-session state a `VoiceSession` owns (lines 195-212; the
analysis-history lists beyond `voice_events` behave identically for the
frame property and the representative ones are carried). -/
structure VSessionState where
  is_active : Bool := true
  audio_buffer : List ℚ := []
  audio_chunks_processed : ℕ := 0
  voice_events : List ChunkAnalysis := []
  current_risk_score : ℚ := 0
  alerts_generated : ℕ := 0

/-- The mutable state of one `VoiceWebSocketManager` (lines 30-52): the
session registry plus the analysis components.  Crucially the manager owns
a SINGLE `VoiceProcessor` (line 44) which `VoiceSession.process_audio`
(line 300) and `_run_cheating_classification` (line 431) use for every
session. -/
structure ManagerState where
  sessions : List (String × VSessionState)
  proc : ProcessorState

/-- Replace the entry of `sid` in the registry. -/
def setSession (sessions : List (String × VSessionState)) (sid : String)
    (v : VSessionState) : List (String × VSessionState) :=
  sessions.map fun p => if p.1 = sid then (p.1, v) else p

/-- `VoiceWebSocketManager.process_audio_chunk` (lines 113-128) composed
with `VoiceSession.process_audio` (lines 265-315): route the chunk to the
session, extend ITS buffer and counters, and run the chunk analysis on the
manager's shared `VoiceProcessor`.  Returns the new state and an error
string when the session is missing or inactive. -/
def process_audio_chunk_ws (sqrt : ℚ → ℚ) (silero : Option (List ℚ → ℚ))
    (webrtc : Option (List ℤ → Bool)) (st : ManagerState) (sid : String)
    (samples : List ℤ) : ManagerState × Option String :=
  match st.sessions.lookup sid with
  | none => (st, some "Session not found")
  | some vs =>
    if ¬vs.is_active then (st, some "Session not active")
    else
      let audio : List ℚ := samples.map fun v => (v : ℚ) / 32768
      let buf0 := vs.audio_buffer ++ audio
      let buf := if buf0.length > 16000 * 30 then buf0.drop (buf0.length - 16000 * 30) else buf0
      let pa := analyze_audio_chunk_proc sqrt silero webrtc st.proc samples
      let vs2 := { vs with
        audio_buffer := buf
        audio_chunks_processed := vs.audio_chunks_processed + 1
        voice_events := vs.voice_events ++ [pa.2] }
      ({ sessions := setSession st.sessions sid vs2, proc := pa.1 }, none)

/-- What a session's classification cycle reads as its "voice summary"
(`_run_cheating_classification`, line 431): the session summary of the
manager's shared processor — the same object for every session. -/
def classification_voice_summary (st : ManagerState) (now : ℚ) :
    SessionSummaryResult :=
  get_session_summary st.proc now

/-- The clock-independent counters of a summary result (speech time,
silence time, speech-event count, suspicious-event count), `none` for the
error result. -/
def summaryCounters : SessionSummaryResult → Option (ℚ × ℚ × ℕ × ℕ)
  | .noSession => none
  | .summary s =>
    some (s.total_speech_time, s.total_silence_time,
      s.total_speech_events, s.suspicious_events_count)

/-! ## side conditions on the fixed pattern set

The scan-count monotonicity argument needs three decidable facts about
each concrete pattern: its alternatives are well-formed (non-empty words
of non-space characters), no later alternative is a "prefix" of an
earlier one (otherwise appending text could turn an earlier
ran-off-the-end alternative into a longer match), and no alternative of
the pattern can match inside a partially-consumed expansion of another
alternative (otherwise a match extended by the appended text could
swallow later matches).  All three are checked by `decide` on the ten
patterns. -/

/-- One alternative is well-formed: non-empty, with non-empty words made
of non-space characters. -/
def altWFB (alt : List (List Char)) : Bool :=
  !alt.isEmpty && alt.all fun w => !w.isEmpty && w.all fun ch => !isSpaceCharP ch

/-- All alternatives of a pattern are well-formed. -/
def patWFB (P : List (List (List Char))) : Bool := P.all altWFB

/-- `prefRelB B A`: the word list `B` is an initial segment of `A` whose
last word is a prefix of the corresponding word of `A` — the exact
configuration in which a text can make `B` match fully while `A` runs off
the end of the text (strictness required when `B` spans all of `A`). -/
def prefRelB : List (List Char) → List (List Char) → Bool
  | [b], a :: A' => b.isPrefixOf a && (!A'.isEmpty || !(b == a))
  | b :: B', a :: A' => !B'.isEmpty && (b == a) && prefRelB B' A'
  | _, _ => false

/-- No later alternative stands in `prefRelB` to an earlier one. -/
def pairsOK : List (List (List Char)) → Bool
  | [] => true
  | a :: as => (as.all fun b => !prefRelB b a) && pairsOK as

/-- All the "suffix alternatives" of one alternative: for every word, the
alternatives obtained by cutting that word at any interior position (the
cut suffix followed by the remaining words), together with every proper
word-level tail.  These are exactly the shapes a partially-consumed
expansion of the alternative can present to an interior match attempt. -/
def innerSuffixAlts : List (List Char) → List (List (List Char))
  | [] => []
  | w :: ws =>
    ((List.range w.length).filterMap fun q =>
      if 1 ≤ q then some (w.drop q :: ws) else none) ++
    (if ws.isEmpty then [] else [ws]) ++ innerSuffixAlts ws

/-- No alternative of the pattern matches along any suffix alternative of
any alternative of the pattern. -/
def cleanB (P : List (List (List Char))) : Bool :=
  P.all fun A => (innerSuffixAlts A).all fun As => P.all fun C => !prefRelB C As

/-! # Theorems -/

/-- **C1.**  For every `CheatingSample` with at least one answer-receiving
phrase, at least one help-seeking phrase and more than one speaker, the
rule-based path (taken by `predict_cheating` whenever the classifier is
untrained, whatever the ML path would do) yields a risk score that clamps
to 1, probability equal to the risk score, probability strictly above 0.5,
and `is_cheating = true`. -/
theorem c1_rule_based_exceeds_half (s : CheatingSample)
    (h1 : 1 ≤ s.answer_receiving_phrases) (h2 : 1 ≤ s.help_seeking_phrases)
    (h3 : 1 < s.total_speakers) :
    (∀ mlPath sk, predict_cheating mlPath false sk s = get_rule_based_prediction s) ∧
    (get_rule_based_prediction s).risk_score = 1 ∧
    (get_rule_based_prediction s).probability = (get_rule_based_prediction s).risk_score ∧
    1/2 < (get_rule_based_prediction s).probability ∧
    (get_rule_based_prediction s).is_cheating = true := by
  refine ⟨fun mlPath sk => by simp [predict_cheating], ?_⟩
  have hrisk : (get_rule_based_prediction s).risk_score = 1 := by
    simp only [get_rule_based_prediction, clamp1]
    split_ifs <;> first
      | (exfalso; omega)
      | (rw [min_eq_left] <;> norm_num)
  have hp : (get_rule_based_prediction s).probability = 1 := hrisk
  have hic : (get_rule_based_prediction s).is_cheating
      = decide ((get_rule_based_prediction s).probability > 1/2) := rfl
  refine ⟨hrisk, rfl, ?_, ?_⟩
  · rw [hp]; norm_num
  · rw [hic, hp]; norm_num

/-- **C1 witness**: the theorem applied at a concrete sample with one
answer-receiving phrase, one help-seeking phrase and two speakers. -/
theorem c1_rule_based_exceeds_half_witness :
    (get_rule_based_prediction
      { answer_receiving_phrases := 1, help_seeking_phrases := 1,
        total_speakers := 2 }).is_cheating = true ∧
    1/2 < (get_rule_based_prediction
      { answer_receiving_phrases := 1, help_seeking_phrases := 1,
        total_speakers := 2 }).probability :=
  ⟨(c1_rule_based_exceeds_half
      { answer_receiving_phrases := 1, help_seeking_phrases := 1, total_speakers := 2 }
      (by decide) (by decide) (by decide)).2.2.2.2,
   (c1_rule_based_exceeds_half
      { answer_receiving_phrases := 1, help_seeking_phrases := 1, total_speakers := 2 }
      (by decide) (by decide) (by decide)).2.2.2.1⟩

/-- **C2.**  For every `CheatingSample` whose suspicious fields are all
zero/false, `predict_cheating` on an untrained classifier takes the
rule-based path, and the prediction has `is_cheating = false`,
`risk_score = 0` and `probability = 0`. -/
theorem c2_clean_sample_zero_risk (s : CheatingSample)
    (h1 : s.help_seeking_phrases = 0) (h2 : s.answer_receiving_phrases = 0)
    (h3 : s.external_discussion = false) (h4 : s.total_speakers = 1)
    (h5 : s.stress_level = 0) (h6 : s.deception_indicators_count = 0)
    (h7 : s.potential_recording = false) :
    ∀ mlPath sk,
      (predict_cheating mlPath false sk s).is_cheating = false ∧
      (predict_cheating mlPath false sk s).risk_score = 0 ∧
      (predict_cheating mlPath false sk s).probability = 0 := by
  intro mlPath sk
  have hdisp : predict_cheating mlPath false sk s = get_rule_based_prediction s := by
    simp [predict_cheating]
  have hrisk : (get_rule_based_prediction s).risk_score = 0 := by
    simp only [get_rule_based_prediction, clamp1]
    rw [if_neg (by omega), if_neg (by omega), if_neg (by simp [h3]),
      if_neg (by omega), if_neg (by rw [h5]; norm_num), if_neg (by omega),
      if_neg (by simp [h7])]
    norm_num
  have hp : (get_rule_based_prediction s).probability = 0 := hrisk
  have hic : (get_rule_based_prediction s).is_cheating
      = decide ((get_rule_based_prediction s).probability > 1/2) := rfl
  rw [hdisp]
  exact ⟨by rw [hic, hp]; norm_num, hrisk, hp⟩

/-- **C2 witness**: the theorem applied at the all-defaults sample. -/
theorem c2_clean_sample_zero_risk_witness :
    (predict_cheating (fun s => get_rule_based_prediction s) false false
      ({} : CheatingSample)).risk_score = 0 :=
  (c2_clean_sample_zero_risk {} (by decide) (by decide) (by decide) (by decide)
    (by decide) (by decide) (by decide) (fun s => get_rule_based_prediction s) false).2.1

/-- **C10.**  The speech rate computed by `analyze_speech_patterns` is
always either 0 (summed durations not positive, in particular the empty
list) or exactly 150 (the assumed 2.5 words/second cancels); consequently
the `speech_rate > 200 or speech_rate < 50` risk condition used by
`calculate_overall_risk_score` on metrics built by `analyze_behavior`
holds exactly when the summed segment duration is zero (durations being
non-negative). -/
theorem c10_speech_rate_constant (sqrt : ℚ → ℚ) (recDet : List ℚ → Bool)
    (audio : List ℚ) (transcription : List Char) (segs : List SpeechSegment)
    (events : List VoiceEvent) (hd : ∀ seg ∈ segs, 0 ≤ seg.duration) :
    ((analyze_speech_patterns sqrt segs).speech_rate = 0 ∨
      (analyze_speech_patterns sqrt segs).speech_rate = 150) ∧
    ((analyze_speech_patterns sqrt segs).speech_rate = 150 ↔
      0 < (segs.map (·.duration)).sum) ∧
    (((analyze_behavior sqrt recDet audio transcription segs events).speech_rate > 200 ∨
        (analyze_behavior sqrt recDet audio transcription segs events).speech_rate < 50) ↔
      (segs.map (·.duration)).sum = 0) := by
  have hsum : 0 ≤ (segs.map (·.duration)).sum := by
    apply List.sum_nonneg
    intro x hx
    obtain ⟨seg, hseg, rfl⟩ := List.mem_map.1 hx
    exact hd seg hseg
  have hzero_iff : (segs.map (·.duration)).sum = 0 ↔
      ¬ 0 < (segs.map (·.duration)).sum := by
    constructor
    · intro h; rw [h]; exact lt_irrefl 0
    · intro h; exact le_antisymm (not_lt.1 h) hsum
  have hrate : (analyze_speech_patterns sqrt segs).speech_rate
      = if 0 < (segs.map (·.duration)).sum then 150 else 0 := by
    by_cases hempty : segs.isEmpty
    · have h0 : segs = [] := List.isEmpty_iff.1 hempty
      subst h0
      simp [analyze_speech_patterns]
    · by_cases hpos : 0 < (segs.map (·.duration)).sum
      · have hne : (segs.map (·.duration)).sum ≠ 0 := ne_of_gt hpos
        rw [if_pos hpos]
        show (if segs.isEmpty then (⟨0, 0, 0, 0⟩ : SpeechPatternResult) else _).speech_rate
          = (150 : ℚ)
        rw [if_neg (by simp [hempty])]
        show (if 0 < (segs.map (·.duration)).sum
            then (segs.map (·.duration)).sum * (5/2) / (segs.map (·.duration)).sum * 60
            else 0) = (150 : ℚ)
        rw [if_pos hpos]
        field_simp
        ring
      · rw [if_neg hpos]
        show (if segs.isEmpty then (⟨0, 0, 0, 0⟩ : SpeechPatternResult) else _).speech_rate
          = (0 : ℚ)
        rw [if_neg (by simp [hempty])]
        show (if 0 < (segs.map (·.duration)).sum
            then (segs.map (·.duration)).sum * (5/2) / (segs.map (·.duration)).sum * 60
            else 0) = (0 : ℚ)
        rw [if_neg hpos]
  have hbeh : (analyze_behavior sqrt recDet audio transcription segs events).speech_rate
      = (analyze_speech_patterns sqrt segs).speech_rate := rfl
  refine ⟨?_, ?_, ?_⟩
  · rw [hrate]; split_ifs <;> simp
  · rw [hrate]; constructor
    · intro h; by_contra hn; rw [if_neg hn] at h; norm_num at h
    · intro h; rw [if_pos h]
  · rw [hbeh, hrate]
    by_cases hpos : 0 < (segs.map (·.duration)).sum
    · rw [if_pos hpos]
      constructor
      · intro h; rcases h with h | h <;> norm_num at h
      · intro h; exact absurd hpos (hzero_iff.1 h)
    · rw [if_neg hpos]
      constructor
      · intro _; exact hzero_iff.2 hpos
      · intro _; right; norm_num

/-- **C10 witness**: the theorem applied at the empty segment list (where
the rate is 0 and the risk condition fires) — the hypothesis on durations
holds vacuously. -/
theorem c10_speech_rate_constant_witness :
    (analyze_speech_patterns (fun _ => 0) []).speech_rate = 0 ∨
    (analyze_speech_patterns (fun _ => 0) []).speech_rate = 150 :=
  (c10_speech_rate_constant (fun _ => 0) (fun _ => false) [] [] [] []
    (by intro seg h; cases h)).1

/-- **C5 counterexample.**  On a processor with no started session,
`get_session_summary` returns the `{'error': 'No active session'}`
result, not a summary of zero counters: the claim's "returns a summary
whose counters are all zero, not an error result" is false on the code. -/
theorem c5_no_session_counterexample :
    get_session_summary ({} : ProcessorState) 5 = .noSession ∧
    summaryCounters (get_session_summary ({} : ProcessorState) 5) = none := by
  constructor <;> rfl

/-- **C5 (amended).**  `get_session_summary` is safe and pure at any time,
but with no started session it returns the error result (not zeros); once
a session has started, repeated calls without intervening chunks return
summaries with identical counters (only the wall-clock duration fields can
differ). -/
theorem c5_summary_idempotent (st : ProcessorState) (now1 now2 t0 : ℚ) :
    get_session_summary { st with session_start_time := none } now1 = .noSession ∧
    summaryCounters
        (get_session_summary { st with session_start_time := some t0 } now1) =
      summaryCounters
        (get_session_summary { st with session_start_time := some t0 } now2) := by
  constructor <;> rfl

/-- **C4 counterexample.**  `load_model` accepts a blob whose stored
feature-name list (`["bogus"]`) differs from the current 20-feature
schema: instead of rejecting it, it installs the mismatched list and marks
the classifier trained.  This falsifies the claim that such a blob must be
rejected. -/
theorem c4_load_model_counterexample :
    @load_model Unit Unit Unit Unit true
      { rf_model := none, gb_model := none, lr_model := none,
        feature_scaler := none, feature_names := get_feature_names,
        model_metrics := none, feature_importance := none, is_trained := false }
      { rf_model := some (), gb_model := some (), lr_model := some (),
        feature_scaler := some (), feature_names := some ["bogus"],
        model_metrics := some (), feature_importance := some () }
    = .ok
      { rf_model := some (), gb_model := some (), lr_model := some (),
        feature_scaler := some (), feature_names := ["bogus"],
        model_metrics := some (), feature_importance := some (),
        is_trained := true } ∧
    ["bogus"] ≠ get_feature_names := by
  exact ⟨rfl, by decide⟩

/-- **C4 (amended).**  `load_model` performs no schema validation: for any
fully-populated blob — in particular one whose feature-name list differs
from the classifier's current schema — it succeeds, installs the blob's
feature names verbatim and sets `is_trained`; its only failure modes are
sklearn being unavailable and a missing blob key. -/
theorem c4_load_model_installs_mismatch {M S Mx Fi : Type}
    (st : ClassifierModelState M S Mx Fi) (rf gb lr : M) (sc : S) (mx : Mx)
    (fi : Fi) (names : List String) (hmismatch : names ≠ st.feature_names) :
    load_model true st
      { rf_model := some rf, gb_model := some gb, lr_model := some lr,
        feature_scaler := some sc, feature_names := some names,
        model_metrics := some mx, feature_importance := some fi }
    = .ok { st with
        rf_model := some rf, gb_model := some gb, lr_model := some lr,
        feature_scaler := some sc, feature_names := names,
        model_metrics := some mx, feature_importance := some fi,
        is_trained := true } ∧
    names ≠ st.feature_names := by
  exact ⟨rfl, hmismatch⟩

/-- **C4 witness**: the amended theorem applied at a concrete mismatched
blob. -/
theorem c4_load_model_installs_mismatch_witness :
    @load_model Unit Unit Unit Unit true
      { rf_model := none, gb_model := none, lr_model := none,
        feature_scaler := none, feature_names := get_feature_names,
        model_metrics := none, feature_importance := none, is_trained := false }
      { rf_model := some (), gb_model := some (), lr_model := some (),
        feature_scaler := some (), feature_names := some ["bogus"],
        model_metrics := some (), feature_importance := some () }
    = .ok
      { rf_model := some (), gb_model := some (), lr_model := some (),
        feature_scaler := some (), feature_names := ["bogus"],
        model_metrics := some (), feature_importance := some (),
        is_trained := true } :=
  (c4_load_model_installs_mismatch
    { rf_model := none, gb_model := none, lr_model := none,
      feature_scaler := none, feature_names := get_feature_names,
      model_metrics := none, feature_importance := none, is_trained := false }
    () () () () () () ["bogus"] (by decide)).1

/-- **C3 counterexample.**  On all-empty input the behavioral analysis
does NOT yield risk 0 / confidence 1: the `speech_rate < 50` and
`speech_consistency < 0.3` rules both fire on the all-zero speech
patterns, giving risk 0.2 and overall confidence 0.8; and the
basic prosodic feature extraction raises `ZeroDivisionError` (`none`) on a
zero-length buffer rather than returning a neutral result. -/
theorem c3_empty_input_counterexample :
    (analyze_behavior (fun _ => 0) (fun _ => false) [] [] [] []).overall_confidence
      = 4/5 ∧
    (4/5 : ℚ) ≠ 1 ∧
    behavioralRiskScore
      (analyze_behavior (fun _ => 0) (fun _ => false) [] [] [] []) = 1/5 ∧
    (1/5 : ℚ) ≠ 0 ∧
    get_basic_prosodic_features (fun _ => 0) [] = none := by
  refine ⟨by norm_num [analyze_behavior, analyze_speech_patterns, analyze_content,
      analyze_audio_quality, analyze_temporal_patterns, behavioralRiskScore,
      calculate_overall_risk_score, clamp1, min_def], by norm_num, ?_, by norm_num, rfl⟩
  norm_num [analyze_behavior, analyze_speech_patterns, analyze_content,
    analyze_audio_quality, analyze_temporal_patterns, behavioralRiskScore,
    calculate_overall_risk_score, clamp1, min_def]

/-- **C3 (amended).**  Each sub-analyzer does return its documented
neutral value on empty input, and none of them raises there — but the
assembled behavioral analysis of all-empty input carries risk exactly 0.2
(confidence 0.8, because the zero speech rate and zero consistency count
as anomalies), and the emotion analyzer's basic prosodic feature
extraction is undefined (`ZeroDivisionError`) on a zero-length buffer. -/
theorem c3_empty_input_behavior (sqrt : ℚ → ℚ) (recDet : List ℚ → Bool) :
    analyze_speech_patterns sqrt [] = ⟨0, 0, 0, 0⟩ ∧
    analyze_content [] = ⟨false, 0, 0, false⟩ ∧
    analyze_audio_quality recDet [] = ⟨0, 1, false, none⟩ ∧
    analyze_temporal_patterns sqrt [] = ⟨0, 0, false⟩ ∧
    (analyze_behavior sqrt recDet [] [] [] []).overall_confidence = 4/5 ∧
    behavioralRiskScore (analyze_behavior sqrt recDet [] [] [] []) = 1/5 ∧
    get_basic_prosodic_features sqrt [] = none := by
  refine ⟨rfl, rfl, rfl, rfl, ?_, ?_, rfl⟩ <;>
    norm_num [analyze_behavior, analyze_speech_patterns, analyze_content,
      analyze_audio_quality, analyze_temporal_patterns, behavioralRiskScore,
      calculate_overall_risk_score, clamp1, min_def]

/-- **C7 counterexample.**  The risk-breakdown entries are NOT within
[0, 1] for arbitrary `CheatingSample` field values: at
`audio_quality_score = 2` (recording flag off) the `quality_risk` entry is
`min(1, (1 - 2) + 0) = -1 < 0`. -/
theorem c7_breakdown_counterexample :
    (get_risk_breakdown { audio_quality_score := 2 }).quality_risk = -1 ∧
    ((get_risk_breakdown { audio_quality_score := 2 }).quality_risk < 0) := by
  constructor <;> norm_num [get_risk_breakdown, min_def]

/-- **C7 (amended).**  All scores are within [0, 1] once the sample's
numeric fields are within their natural ranges (they are produced there by
the pipeline): the behavioral risk score and the derived confidence, the
rule-based prediction's risk/probability/confidence, every risk-breakdown
entry (given `audio_quality_score`, `stress_level`, `anxiety_level` in
[0, 1] and non-negative counts and pause frequency), the diarization
confidence, and the emotional stress/anxiety/risk scores (given
non-negative emotion probabilities and prediction fields). -/
theorem c7_scores_within_unit_interval (m : BehavioralMetrics)
    (s : CheatingSample) (f : EmotionalFeatures) (p : EmotionProbs)
    (pred : EmotionPrediction) (spk sw : ℕ) (pr : ℚ)
    (hq0 : 0 ≤ s.audio_quality_score) (hq1 : s.audio_quality_score ≤ 1)
    (hst0 : 0 ≤ s.stress_level) (hst1 : s.stress_level ≤ 1)
    (hax0 : 0 ≤ s.anxiety_level) (hax1 : s.anxiety_level ≤ 1)
    (hh : 0 ≤ s.help_seeking_phrases) (ha : 0 ≤ s.answer_receiving_phrases)
    (hpf : 0 ≤ s.pause_frequency)
    (hp1 : 0 ≤ p.angry) (hp2 : 0 ≤ p.fear) (hp3 : 0 ≤ p.sad) (hp4 : 0 ≤ p.surprise)
    (he1 : 0 ≤ pred.stress_level) (he2 : 0 ≤ pred.anxiety_level)
    (he3 : 0 ≤ pred.probabilities.fear) (he4 : 0 ≤ pred.probabilities.angry) :
    (0 ≤ behavioralRiskScore m ∧ behavioralRiskScore m ≤ 1) ∧
    (0 ≤ (get_rule_based_prediction s).risk_score ∧
      (get_rule_based_prediction s).risk_score ≤ 1) ∧
    (0 ≤ (get_rule_based_prediction s).probability ∧
      (get_rule_based_prediction s).probability ≤ 1) ∧
    (0 ≤ (get_rule_based_prediction s).confidence ∧
      (get_rule_based_prediction s).confidence ≤ 1) ∧
    (0 ≤ (get_risk_breakdown s).content_risk ∧ (get_risk_breakdown s).content_risk ≤ 1) ∧
    (0 ≤ (get_risk_breakdown s).speaker_risk ∧ (get_risk_breakdown s).speaker_risk ≤ 1) ∧
    (0 ≤ (get_risk_breakdown s).emotion_risk ∧ (get_risk_breakdown s).emotion_risk ≤ 1) ∧
    (0 ≤ (get_risk_breakdown s).quality_risk ∧ (get_risk_breakdown s).quality_risk ≤ 1) ∧
    (0 ≤ (get_risk_breakdown s).behavioral_risk ∧
      (get_risk_breakdown s).behavioral_risk ≤ 1) ∧
    (0 ≤ calculate_diarization_confidence spk sw pr ∧
      calculate_diarization_confidence spk sw pr ≤ 1) ∧
    (0 ≤ calculate_stress_level f p ∧ calculate_stress_level f p ≤ 1) ∧
    (0 ≤ calculate_anxiety_level f p ∧ calculate_anxiety_level f p ≤ 1) ∧
    (0 ≤ calculate_emotional_risk_score pred ∧
      calculate_emotional_risk_score pred ≤ 1) := by
  have hite : ∀ (c : Prop) (inst : Decidable c) (k : ℚ), 0 ≤ k →
      0 ≤ @ite ℚ c inst k 0 := by
    intro c inst k hk
    split_ifs
    · exact hk
    · exact le_refl 0
  have hmin1 : ∀ x : ℚ, 0 ≤ x → 0 ≤ min 1 x ∧ min 1 x ≤ 1 := by
    intro x hx
    exact ⟨le_min (by norm_num) hx, min_le_left _ _⟩
  have hbeh : 0 ≤ behavioralRiskScore m ∧ behavioralRiskScore m ≤ 1 := by
    apply hmin1
    repeat' apply add_nonneg
    all_goals exact hite _ _ _ (by norm_num)
  have hrb : 0 ≤ (get_rule_based_prediction s).risk_score ∧
      (get_rule_based_prediction s).risk_score ≤ 1 := by
    apply hmin1
    repeat' apply add_nonneg
    all_goals exact hite _ _ _ (by norm_num)
  have hprob : (get_rule_based_prediction s).probability
      = (get_rule_based_prediction s).risk_score := rfl
  have hconf : (get_rule_based_prediction s).confidence
      = max ((get_rule_based_prediction s).probability)
          (1 - (get_rule_based_prediction s).probability) * (8/10) := rfl
  have hconfb : 0 ≤ (get_rule_based_prediction s).confidence ∧
      (get_rule_based_prediction s).confidence ≤ 1 := by
    rw [hconf, hprob]
    constructor
    · apply mul_nonneg _ (by norm_num)
      exact le_trans hrb.1 (le_max_left _ _)
    · have hmax : max ((get_rule_based_prediction s).risk_score)
          (1 - (get_rule_based_prediction s).risk_score) ≤ 1 :=
        max_le hrb.2 (by linarith [hrb.1])
      nlinarith [hmax, le_trans hrb.1 (le_max_left ((get_rule_based_prediction s).risk_score)
        (1 - (get_rule_based_prediction s).risk_score))]
  refine ⟨hbeh, hrb, hprob ▸ hrb, hconfb, ?_, ?_, ?_, ?_, ?_, ?_, ?_, ?_, ?_⟩
  · apply hmin1
    apply mul_nonneg _ (by norm_num)
    have : (0 : ℤ) ≤ s.help_seeking_phrases + s.answer_receiving_phrases := by omega
    exact_mod_cast this
  · apply hmin1
    apply mul_nonneg _ (by norm_num)
    have : (0 : ℤ) ≤ max 0 (s.total_speakers - 1) := le_max_left 0 _
    exact_mod_cast this
  · apply hmin1; linarith
  · apply hmin1
    have : (0:ℚ) ≤ (if s.potential_recording then (1:ℚ) else 0) := hite _ _ _ (by norm_num)
    linarith
  · apply hmin1; linarith
  · exact ⟨le_max_left 0 _, max_le (by norm_num) (min_le_left _ _)⟩
  · apply hmin1
    repeat' apply add_nonneg
    · exact hite _ _ _ (by norm_num)
    · exact hite _ _ _ (by norm_num)
    · exact hite _ _ _ (by norm_num)
    · exact mul_nonneg hp1 (by norm_num)
    · exact mul_nonneg hp2 (by norm_num)
    · exact mul_nonneg hp3 (by norm_num)
  · apply hmin1
    repeat' apply add_nonneg
    · exact hite _ _ _ (by norm_num)
    · exact hite _ _ _ (by norm_num)
    · exact hite _ _ _ (by norm_num)
    · exact mul_nonneg hp2 (by norm_num)
    · exact mul_nonneg hp4 (by norm_num)
    · exact mul_nonneg hp3 (by norm_num)
  · apply hmin1
    repeat' apply add_nonneg
    · exact mul_nonneg he1 (by norm_num)
    · exact mul_nonneg he2 (by norm_num)
    · exact mul_nonneg (by positivity) (by norm_num)
    · exact mul_nonneg he3 (by norm_num)
    · exact mul_nonneg he4 (by norm_num)

/-- **C7 witness**: the amended theorem applied at in-range defaults. -/
theorem c7_scores_within_unit_interval_witness :
    0 ≤ behavioralRiskScore {} ∧ behavioralRiskScore ({} : BehavioralMetrics) ≤ 1 :=
  (c7_scores_within_unit_interval {} {} {} {} ⟨"neutral", 0, {}, 0, 0, []⟩ 0 0 0
    (by decide) (by decide) (by decide) (by decide) (by decide) (by decide)
    (by decide) (by decide) (by decide) (by decide) (by decide) (by decide)
    (by decide) (by decide) (by decide) (by decide) (by decide)).1

/-- **C6 (code bug).**  When the diarization model is not loaded, the
analysis path of `analyze_audio_async` does NOT return the energy-variance
fallback: `perform_speaker_diarization` yields `None`, and
`analyze_speaker_patterns` then returns the zero-speaker analysis —
`total_speakers = 0`, `confidence_score = 0`, no `fallback` marker —
for every audio buffer.  `get_fallback_analysis` (which always carries
`fallback = true` and `confidence_score = 0.4`, as its second conjunct
shows) is never invoked from that path, although the detector logs
"Using fallback speaker detection" when the credential is missing. -/
theorem c6_no_fallback_when_model_missing :
    (∀ (backend : List ℚ → Option (List DiarTrack)) (audio : List ℚ),
      analyze_audio_speaker false backend audio =
        { total_speakers := 0, primary_speaker_ratio := 1, speaker_switches := 0,
          overlapping_speech_duration := 0, speaker_segments := [],
          suspicious_patterns := [], confidence_score := 0, fallback := none }) ∧
    (∀ (sqrt : ℚ → ℚ) (audio : List ℚ) (r : SpeakerAnalysis),
      get_fallback_analysis sqrt audio = some r →
        r.confidence_score = 4/10 ∧ r.fallback = some true) := by
  constructor
  · intro backend audio
    rfl
  · intro sqrt audio r hr
    simp only [get_fallback_analysis] at hr
    split_ifs at hr <;> (cases hr <;> exact ⟨rfl, rfl⟩)

/-- **C6 witness**: the code path evaluated at a concrete missing-model
configuration and buffer (the failing input), and the fallback evaluated
at a concrete buffer of twenty samples of value 1/2 where it returns its
marked low-confidence result. -/
theorem c6_no_fallback_when_model_missing_witness :
    (analyze_audio_speaker false (fun _ => none) (List.replicate 20 (1/2))).confidence_score
      = 0 ∧
    ∃ r, get_fallback_analysis (fun x => x) (List.replicate 20 (1/2)) = some r ∧
      r.confidence_score = 4/10 ∧ r.fallback = some true := by
  constructor
  · rw [(c6_no_fallback_when_model_missing).1 (fun _ => none) (List.replicate 20 (1/2))]
  · have heq : get_fallback_analysis (fun x => x) (List.replicate 20 (1/2))
        = some
            { total_speakers := 1, primary_speaker_ratio := 8/10,
              speaker_switches := 0, overlapping_speech_duration := 0,
              speaker_segments := [], suspicious_patterns := [],
              confidence_score := 4/10, fallback := some true } := by
      with_unfolding_all rfl
    exact ⟨_, heq, (c6_no_fallback_when_model_missing).2 (fun x => x)
      (List.replicate 20 (1/2)) _ heq⟩

/-- **C9 counterexample.**  Processing an audio chunk for session "A"
changes observable state that session "B"'s classification cycle reads:
both sessions share the manager's single `VoiceProcessor`, so A's chunk
increments the silence-time counter in the session summary that B's
`_run_cheating_classification` obtains.  (Initial state: sessions "A" and
"B" registered, processor session started at time 0; chunk: one zero
sample; no VAD backends.) -/
theorem c9_shared_processor_counterexample :
    (process_audio_chunk_ws (fun _ => 0) none none
        ⟨[("A", {}), ("B", {})], { session_start_time := some 0 }⟩ "A" [0]).1.proc.total_silence_time
      = 1/16000 ∧
    (1/16000 : ℚ) ≠ 0 ∧
    summaryCounters (classification_voice_summary
        (process_audio_chunk_ws (fun _ => 0) none none
          ⟨[("A", {}), ("B", {})], { session_start_time := some 0 }⟩ "A" [0]).1 7)
      ≠ summaryCounters (classification_voice_summary
        ⟨[("A", {}), ("B", {})], { session_start_time := some 0 }⟩ 7) := by
  have ha : (process_audio_chunk_ws (fun _ => 0) none none
      ⟨[("A", {}), ("B", {})], { session_start_time := some 0 }⟩ "A" [0]).1.proc.total_silence_time
      = 0 + 1/16000 := by with_unfolding_all rfl
  have hc : summaryCounters (classification_voice_summary
      (process_audio_chunk_ws (fun _ => 0) none none
        ⟨[("A", {}), ("B", {})], { session_start_time := some 0 }⟩ "A" [0]).1 7)
      = some (0, 0 + 1/16000, 0, 0) := by with_unfolding_all rfl
  have hd : summaryCounters (classification_voice_summary
      ⟨[("A", {}), ("B", {})], { session_start_time := some 0 }⟩ 7)
      = some (0, 0, 0, 0) := by with_unfolding_all rfl
  refine ⟨by rw [ha]; norm_num, by norm_num, ?_⟩
  rw [hc, hd]
  intro h
  have h2 := Option.some.inj h
  rw [Prod.ext_iff, Prod.ext_iff] at h2
  have := h2.2.1
  norm_num at this

/-- On an association list, replacing the value at one key leaves every
other key's lookup unchanged. -/
theorem lookup_setSession_ne (sessions : List (String × VSessionState))
    (sid sid2 : String) (v : VSessionState) (h : sid2 ≠ sid) :
    (setSession sessions sid v).lookup sid2 = sessions.lookup sid2 := by
  induction sessions with
  | nil => rfl
  | cons p rest ih =>
    obtain ⟨k, w⟩ := p
    by_cases hs : k = sid
    · subst hs
      have hbeq : (sid2 == k) = false := beq_eq_false_iff_ne.2 h
      simp only [setSession, List.map_cons, if_true]
      rw [List.lookup_cons, List.lookup_cons, hbeq]
      exact ih
    · simp only [setSession, List.map_cons]
      rw [if_neg hs, List.lookup_cons, List.lookup_cons]
      cases hbeq : (sid2 == k) with
      | true => rfl
      | false => exact ih

/-- **C9 (amended).**  Processing an audio chunk for session `sid` leaves
every other session's own per-session state (buffer, counters, event
lists) untouched — but the voice-activity counters and event lists live on
the manager's single shared `VoiceProcessor`, which the chunk DOES mutate
(and whose summary any session's classification cycle reads), so session
B's observable classification input is not isolated from A's audio. -/
theorem c9_session_isolation_and_shared_processor (sqrt : ℚ → ℚ)
    (silero : Option (List ℚ → ℚ)) (webrtc : Option (List ℤ → Bool))
    (st : ManagerState) (sid sid2 : String) (samples : List ℤ)
    (h : sid2 ≠ sid) :
    ((process_audio_chunk_ws sqrt silero webrtc st sid samples).1.sessions.lookup sid2
      = st.sessions.lookup sid2) ∧
    ((process_audio_chunk_ws sqrt silero webrtc st sid samples).1.proc = st.proc ∨
      (process_audio_chunk_ws sqrt silero webrtc st sid samples).1.proc
        = (analyze_audio_chunk_proc sqrt silero webrtc st.proc samples).1) := by
  unfold process_audio_chunk_ws
  cases hl : st.sessions.lookup sid with
  | none =>
    exact ⟨rfl, Or.inl rfl⟩
  | some vs =>
    dsimp only
    by_cases hact : vs.is_active
    · rw [if_neg (not_not_intro hact)]
      exact ⟨lookup_setSession_ne st.sessions sid sid2 _ h, Or.inr rfl⟩
    · rw [if_pos hact]
      exact ⟨rfl, Or.inl rfl⟩

/-- **C9 witness**: the amended theorem applied at the concrete two-session
state. -/
theorem c9_session_isolation_witness :
    ((process_audio_chunk_ws (fun _ => 0) none none
        ⟨[("A", {}), ("B", {})], { session_start_time := some 0 }⟩ "A" [0]).1.sessions.lookup "B"
      = (⟨[("A", {}), ("B", {})],
          { session_start_time := some 0 }⟩ : ManagerState).sessions.lookup "B") :=
  (c9_session_isolation_and_shared_processor (fun _ => 0) none none
    ⟨[("A", {}), ("B", {})], { session_start_time := some 0 }⟩ "A" "B" [0]
    (by decide)).1

/-! ## C8 machinery, layer 1: word- and space-level matching lemmas -/

/-- A word matches exactly its own characters. -/
theorem mw_ok_iff (w t r : List Char) : matchWordX w t = .ok r ↔ t = w ++ r := by
  induction w generalizing t with
  | nil => simp [matchWordX]
  | cons c w ih =>
    cases t with
    | nil => simp [matchWordX]
    | cons d t' =>
      simp only [matchWordX]
      by_cases hd : d = c
      · subst hd
        rw [if_pos rfl, ih]
        simp
      · rw [if_neg hd]
        simp [hd]

/-- An `eoi` word match means the text is a proper prefix of the word. -/
theorem mw_eoi_exists (w t : List Char) (h : matchWordX w t = .eoi) :
    ∃ ext, ext ≠ [] ∧ w = t ++ ext := by
  induction w generalizing t with
  | nil => cases t <;> simp [matchWordX] at h
  | cons c w ih =>
    cases t with
    | nil => exact ⟨c :: w, by simp, rfl⟩
    | cons d t' =>
      simp only [matchWordX] at h
      by_cases hd : d = c
      · rw [if_pos hd] at h
        obtain ⟨ext, hne, hw⟩ := ih t' h
        subst hd
        exact ⟨ext, hne, by simp [hw]⟩
      · rw [if_neg hd] at h; cases h

/-- A hard word failure is stable under appending text. -/
theorem mw_hard_stable (w t s : List Char) (h : matchWordX w t = .hard) :
    matchWordX w (t ++ s) = .hard := by
  induction w generalizing t with
  | nil => simp [matchWordX] at h
  | cons c w ih =>
    cases t with
    | nil => simp [matchWordX] at h
    | cons d t' =>
      simp only [matchWordX, List.cons_append] at h ⊢
      by_cases hd : d = c
      · rw [if_pos hd] at h ⊢; exact ih t' h
      · rw [if_neg hd] at h ⊢

/-- A successful word match is stable under appending text. -/
theorem mw_ok_stable (w t s r : List Char) (h : matchWordX w t = .ok r) :
    matchWordX w (t ++ s) = .ok (r ++ s) := by
  rw [mw_ok_iff] at h ⊢
  rw [h, List.append_assoc]

/-- Matching a word against a proper prefix of itself runs off the end. -/
theorem mw_eoi_of_extra (t ext : List Char) (hne : ext ≠ []) :
    matchWordX (t ++ ext) t = .eoi := by
  induction t with
  | nil =>
    cases ext with
    | nil => exact absurd rfl hne
    | cons e ext' => simp [matchWordX]
  | cons c t' ih => simp [matchWordX, ih]

/-- `dropWhile` either empties the list or stops at a failing element. -/
theorem dropWhile_shape (p : Char → Bool) (l : List Char) :
    l.dropWhile p = [] ∨ ∃ d l2, l.dropWhile p = d :: l2 ∧ p d = false := by
  induction l with
  | nil => exact Or.inl rfl
  | cons c l' ih =>
    by_cases hc : p c
    · simpa [List.dropWhile_cons, hc] using ih
    · right
      exact ⟨c, l', by simp [List.dropWhile_cons, hc], by simpa using hc⟩

/-- A `dropWhile` that stops inside the list is unaffected by a suffix. -/
theorem dropWhile_append_of_ne_nil (p : Char → Bool) (l s : List Char)
    (d : Char) (l2 : List Char) (h : l.dropWhile p = d :: l2) :
    (l ++ s).dropWhile p = d :: (l2 ++ s) := by
  induction l with
  | nil => simp at h
  | cons c l' ih =>
    by_cases hc : p c
    · rw [List.dropWhile_cons, if_pos hc] at h
      rw [List.cons_append, List.dropWhile_cons, if_pos hc]
      exact ih h
    · rw [List.dropWhile_cons, if_neg hc] at h
      injection h with h1 h2
      subst h1; subst h2
      rw [List.cons_append, List.dropWhile_cons, if_neg hc]

/-- Dropping a run of `p`-elements before a non-`p` boundary. -/
theorem dropWhile_run (p : Char → Bool) (sp t2 : List Char)
    (hsp : ∀ c ∈ sp, p c)
    (ht2 : t2 = [] ∨ ∃ d r2, t2 = d :: r2 ∧ p d = false) :
    (sp ++ t2).dropWhile p = t2 := by
  induction sp with
  | nil =>
    rcases ht2 with rfl | ⟨d, r2, rfl, hd⟩
    · rfl
    · simp [List.dropWhile_cons, hd]
  | cons c sp' ih =>
    simp only [List.cons_append, List.dropWhile_cons, if_pos (hsp c (by simp))]
    exact ih fun x hx => hsp x (by simp [hx])

/-- Decomposition of a successful `\s+` match: a non-empty space run,
maximal (the remainder is empty or starts with a non-space). -/
theorem msp_ok_exists (t r : List Char) (h : matchSpacesX t = .ok r) :
    ∃ sp, t = sp ++ r ∧ sp ≠ [] ∧ (∀ c ∈ sp, isSpaceCharP c) ∧
      (r = [] ∨ ∃ d r2, r = d :: r2 ∧ isSpaceCharP d = false) := by
  cases t with
  | nil => simp [matchSpacesX] at h
  | cons c t' =>
    simp only [matchSpacesX] at h
    by_cases hc : isSpaceCharP c
    · rw [if_pos hc] at h
      injection h with hr
      refine ⟨c :: t'.takeWhile isSpaceCharP, ?_, by simp, ?_, ?_⟩
      · rw [← hr]
        simp [List.takeWhile_append_dropWhile]
      · intro x hx
        rcases List.mem_cons.1 hx with rfl | hx'
        · exact hc
        · exact List.mem_takeWhile_imp hx'
      · rw [← hr]
        exact dropWhile_shape _ t'
    · rw [if_neg hc] at h; cases h

/-- A successful `\s+` match with non-empty remainder is stable under
appending text. -/
theorem msp_ok_stable (t s : List Char) (d : Char) (r2 : List Char)
    (h : matchSpacesX t = .ok (d :: r2)) :
    matchSpacesX (t ++ s) = .ok (d :: (r2 ++ s)) := by
  cases t with
  | nil => simp [matchSpacesX] at h
  | cons c t' =>
    simp only [matchSpacesX, List.cons_append] at h ⊢
    by_cases hc : isSpaceCharP c
    · rw [if_pos hc] at h
      injection h with hr
      rw [if_pos hc, dropWhile_append_of_ne_nil _ _ _ _ _ hr]
    · rw [if_neg hc] at h; cases h

/-- A hard `\s+` failure is stable under appending text. -/
theorem msp_hard_stable (t s : List Char) (h : matchSpacesX t = .hard) :
    matchSpacesX (t ++ s) = .hard := by
  cases t with
  | nil => simp [matchSpacesX] at h
  | cons c t' =>
    simp only [matchSpacesX, List.cons_append] at h ⊢
    by_cases hc : isSpaceCharP c
    · rw [if_pos hc] at h; cases h
    · rw [if_neg hc] at h ⊢

/-- `\s+` runs off the end exactly on the empty text. -/
theorem msp_eoi_iff (t : List Char) : matchSpacesX t = .eoi ↔ t = [] := by
  cases t with
  | nil => simp [matchSpacesX]
  | cons c t' =>
    simp only [matchSpacesX]
    split_ifs <;> simp

/-- `\s+` on a space run followed by a non-space boundary consumes exactly
the run. -/
theorem msp_of_run (sp t2 : List Char) (hne : sp ≠ [])
    (hsp : ∀ c ∈ sp, isSpaceCharP c)
    (ht2 : t2 = [] ∨ ∃ d r2, t2 = d :: r2 ∧ isSpaceCharP d = false) :
    matchSpacesX (sp ++ t2) = .ok t2 := by
  cases sp with
  | nil => exact absurd rfl hne
  | cons c sp' =>
    simp only [List.cons_append, matchSpacesX]
    rw [if_pos (hsp c (by simp))]
    rw [dropWhile_run _ sp' t2 (fun x hx => hsp x (by simp [hx])) ht2]

/-! ## C8 machinery, layer 2: alternative-level matching lemmas -/

/-- Unfolding equation for `matchAltX` on a cons. -/
theorem matchAltX_cons (w : List Char) (ws : List (List Char)) (t : List Char) :
    matchAltX (w :: ws) t =
      match matchWordX w t with
      | .ok t1 =>
        match ws with
        | [] => .ok t1
        | _ :: _ =>
          match matchSpacesX t1 with
          | .ok t2 => matchAltX ws t2
          | .hard => .hard
          | .eoi => .eoi
      | .hard => .hard
      | .eoi => .eoi := rfl

/-- Unpacking the Boolean well-formedness of an alternative. -/
theorem altWFB_spec (alt : List (List Char)) (h : altWFB alt = true) :
    alt ≠ [] ∧ ∀ w ∈ alt, w ≠ [] ∧ ∀ ch ∈ w, isSpaceCharP ch = false := by
  simp only [altWFB, Bool.and_eq_true, Bool.not_eq_true', List.all_eq_true,
    List.isEmpty_eq_false, List.isEmpty_iff] at h
  obtain ⟨hne, hall⟩ := h
  exact ⟨hne, fun w hw => ⟨(hall w hw).1, (hall w hw).2⟩⟩

/-- A successful alternative match only shortens the text. -/
theorem alt_ok_le (alt : List (List Char)) (t r : List Char)
    (h : matchAltX alt t = .ok r) : r.length ≤ t.length := by
  induction alt generalizing t with
  | nil =>
    simp only [matchAltX] at h
    injection h with h1
    subst h1
    exact le_refl _
  | cons w ws ih =>
    rw [matchAltX_cons] at h
    cases hw : matchWordX w t with
    | hard => rw [hw] at h; cases h
    | eoi => rw [hw] at h; cases h
    | ok t1 =>
      rw [hw] at h
      dsimp only at h
      have hle1 : t1.length ≤ t.length := by
        rw [mw_ok_iff] at hw
        subst hw
        simp
      cases ws with
      | nil =>
        injection h with h1
        subst h1
        exact hle1
      | cons w2 ws' =>
        cases hsp : matchSpacesX t1 with
        | hard => rw [hsp] at h; cases h
        | eoi => rw [hsp] at h; cases h
        | ok t2 =>
          rw [hsp] at h
          dsimp only at h
          have hle2 : t2.length ≤ t1.length := by
            obtain ⟨sp, hdec, _, _, _⟩ := msp_ok_exists t1 t2 hsp
            subst hdec
            simp
          exact le_trans (le_trans (ih t2 h) hle2) hle1

/-- With a non-empty first word, a successful alternative match consumes
at least one character. -/
theorem alt_ok_lt (w : List Char) (ws : List (List Char)) (t r : List Char)
    (hw : w ≠ []) (h : matchAltX (w :: ws) t = .ok r) : r.length < t.length := by
  rw [matchAltX_cons] at h
  cases hmw : matchWordX w t with
  | hard => rw [hmw] at h; cases h
  | eoi => rw [hmw] at h; cases h
  | ok t1 =>
    rw [hmw] at h
    dsimp only at h
    have hlt1 : t1.length < t.length := by
      rw [mw_ok_iff] at hmw
      subst hmw
      cases w with
      | nil => exact absurd rfl hw
      | cons c w' =>
        simp
        omega
    cases ws with
    | nil =>
      injection h with h1
      subst h1
      exact hlt1
    | cons w2 ws' =>
      cases hsp : matchSpacesX t1 with
      | hard => rw [hsp] at h; cases h
      | eoi => rw [hsp] at h; cases h
      | ok t2 =>
        rw [hsp] at h
        dsimp only at h
        have hle2 : t2.length ≤ t1.length := by
          obtain ⟨sp, hdec, _, _, _⟩ := msp_ok_exists t1 t2 hsp
          subst hdec
          simp
        exact lt_of_le_of_lt (le_trans (alt_ok_le _ _ _ h) hle2) hlt1

/-- A successful alternative match leaves a suffix. -/
theorem alt_ok_suffix (alt : List (List Char)) (t r : List Char)
    (h : matchAltX alt t = .ok r) : ∃ pre, t = pre ++ r := by
  induction alt generalizing t with
  | nil =>
    simp only [matchAltX] at h
    injection h with h1
    subst h1
    exact ⟨[], rfl⟩
  | cons w ws ih =>
    rw [matchAltX_cons] at h
    cases hmw : matchWordX w t with
    | hard => rw [hmw] at h; cases h
    | eoi => rw [hmw] at h; cases h
    | ok t1 =>
      rw [hmw] at h
      dsimp only at h
      rw [mw_ok_iff] at hmw
      subst hmw
      cases ws with
      | nil =>
        injection h with h1
        subst h1
        exact ⟨w, rfl⟩
      | cons w2 ws' =>
        cases hsp : matchSpacesX t1 with
        | hard => rw [hsp] at h; cases h
        | eoi => rw [hsp] at h; cases h
        | ok t2 =>
          rw [hsp] at h
          dsimp only at h
          obtain ⟨sp, hdec, _, _, _⟩ := msp_ok_exists t1 t2 hsp
          obtain ⟨pre', hpre'⟩ := ih t2 h
          subst hdec
          subst hpre'
          exact ⟨w ++ (sp ++ pre'), by simp⟩

/-- A successful alternative match is stable under appending text, for
alternatives whose words are non-empty. -/
theorem alt_ok_stable (alt : List (List Char)) (hWF : ∀ w ∈ alt, w ≠ [])
    (t s r : List Char) (h : matchAltX alt t = .ok r) :
    matchAltX alt (t ++ s) = .ok (r ++ s) := by
  induction alt generalizing t with
  | nil =>
    simp only [matchAltX] at h ⊢
    injection h with h1
    subst h1
    rfl
  | cons w ws ih =>
    rw [matchAltX_cons] at h
    rw [matchAltX_cons]
    cases hmw : matchWordX w t with
    | hard => rw [hmw] at h; cases h
    | eoi => rw [hmw] at h; cases h
    | ok t1 =>
      rw [hmw] at h
      dsimp only at h
      rw [mw_ok_stable w t s t1 hmw]
      dsimp only
      cases ws with
      | nil =>
        injection h with h1
        subst h1
        rfl
      | cons w2 ws' =>
        cases hsp : matchSpacesX t1 with
        | hard => rw [hsp] at h; cases h
        | eoi => rw [hsp] at h; cases h
        | ok t2 =>
          rw [hsp] at h
          dsimp only at h
          have ht2 : t2 ≠ [] := by
            intro h0
            subst h0
            have hw2 : w2 ≠ [] := hWF w2 (by simp)
            cases hw2c : w2 with
            | nil => exact hw2 hw2c
            | cons c w2' =>
              rw [hw2c, matchAltX_cons] at h
              simp only [matchWordX] at h
              cases h
          obtain ⟨d, r2, rfl⟩ : ∃ d r2, t2 = d :: r2 := by
            cases t2 with
            | nil => exact absurd rfl ht2
            | cons d r2 => exact ⟨d, r2, rfl⟩
          rw [msp_ok_stable t1 s d r2 hsp]
          dsimp only
          exact ih (fun x hx => hWF x (by simp [hx])) _ h

/-- A hard alternative failure is stable under appending text, for
alternatives whose words are non-empty. -/
theorem alt_hard_stable (alt : List (List Char)) (hWF : ∀ w ∈ alt, w ≠ [])
    (t s : List Char) (h : matchAltX alt t = .hard) :
    matchAltX alt (t ++ s) = .hard := by
  induction alt generalizing t with
  | nil => cases h
  | cons w ws ih =>
    rw [matchAltX_cons] at h
    rw [matchAltX_cons]
    cases hmw : matchWordX w t with
    | eoi => rw [hmw] at h; cases ws <;> cases h
    | hard => rw [mw_hard_stable w t s hmw]
    | ok t1 =>
      rw [hmw] at h
      dsimp only at h
      rw [mw_ok_stable w t s t1 hmw]
      dsimp only
      cases ws with
      | nil => cases h
      | cons w2 ws' =>
        cases hsp : matchSpacesX t1 with
        | eoi => rw [hsp] at h; cases h
        | hard => rw [msp_hard_stable t1 s hsp]
        | ok t2 =>
          rw [hsp] at h
          dsimp only at h
          have ht2 : t2 ≠ [] := by
            intro h0
            subst h0
            have hw2 : w2 ≠ [] := hWF w2 (by simp)
            cases hw2c : w2 with
            | nil => exact hw2 hw2c
            | cons c w2' =>
              rw [hw2c, matchAltX_cons] at h
              simp only [matchWordX] at h
              cases h
          obtain ⟨d, r2, rfl⟩ : ∃ d r2, t2 = d :: r2 := by
            cases t2 with
            | nil => exact absurd rfl ht2
            | cons d r2 => exact ⟨d, r2, rfl⟩
          rw [msp_ok_stable t1 s d r2 hsp]
          dsimp only
          exact ih (fun x hx => hWF x (by simp [hx])) _ h

/-- A successful `firstOkAlt` comes from some alternative in the list. -/
theorem firstOkAlt_mem (L : List (List (List Char))) (t r : List Char)
    (h : firstOkAlt L t = some r) : ∃ B ∈ L, matchAltX B t = .ok r := by
  induction L with
  | nil => cases h
  | cons a as ih =>
    simp only [firstOkAlt] at h
    cases ha : matchAltX a t with
    | ok r0 =>
      rw [ha] at h
      injection h with h1
      subst h1
      exact ⟨a, by simp, ha⟩
    | hard =>
      rw [ha] at h
      obtain ⟨B, hB, hBok⟩ := ih h
      exact ⟨B, by simp [hB], hBok⟩
    | eoi =>
      rw [ha] at h
      obtain ⟨B, hB, hBok⟩ := ih h
      exact ⟨B, by simp [hB], hBok⟩

/-- A failed `firstOkAlt` means no alternative matches. -/
theorem firstOkAlt_none (L : List (List (List Char))) (t : List Char)
    (h : firstOkAlt L t = none) (B : List (List Char)) (hB : B ∈ L)
    (r : List Char) : matchAltX B t ≠ .ok r := by
  induction L with
  | nil => cases hB
  | cons a as ih =>
    simp only [firstOkAlt] at h
    rcases List.mem_cons.1 hB with rfl | hB'
    · intro hok
      rw [hok] at h
      cases h
    · cases ha : matchAltX a t with
      | ok r0 => rw [ha] at h; cases h
      | hard => rw [ha] at h; exact ih h hB'
      | eoi => rw [ha] at h; exact ih h hB'

/-! ## C8 machinery, layer 3: unfolding equations and alignment -/

/-- First unfolding equation of `prefRelB` (singleton against a cons). -/
theorem prefRelB_one (b a : List Char) (A' : List (List Char)) :
    prefRelB [b] (a :: A') = (b.isPrefixOf a && (!A'.isEmpty || !(b == a))) := rfl

/-- Second unfolding equation of `prefRelB` (two-or-more against a cons). -/
theorem prefRelB_two (b b2 a : List Char) (B' A' : List (List Char)) :
    prefRelB (b :: b2 :: B') (a :: A') =
      (!(b2 :: B').isEmpty && (b == a) && prefRelB (b2 :: B') A') := rfl

/-- Scanning the empty text counts zero matches. -/
theorem scanCount_nil (p : List (List (List Char))) (prev : Bool) :
    scanCount p prev [] = 0 := by
  simp [scanCount]

/-- Unfolding equation of `scanCount` on a cons. -/
theorem scanCount_cons (p : List (List (List Char))) (prev : Bool) (c : Char)
    (rest : List Char) :
    scanCount p prev (c :: rest) =
      match (if prev ≠ isWordCharP c then firstOkAlt p (c :: rest) else none) with
      | some rem =>
        1 + scanCount p
          (isWordCharP (((c :: rest).take (max 1 ((c :: rest).length - rem.length))).getLastD c))
          ((c :: rest).drop (max 1 ((c :: rest).length - rem.length)))
      | none => scanCount p (isWordCharP c) rest := by
  rw [scanCount]

/-- Alignment: if alternative `A` runs off the end of a text that
alternative `C` matches fully, then `C` is a word-level prefix of `A`
(its last word possibly a proper prefix of the corresponding word of
`A`) — exactly the relation `prefRelB C A`.  Both alternatives are
required to have space-free words. -/
theorem align (C : List (List Char)) : ∀ (A : List (List Char)) (u r : List Char),
    (∀ w ∈ A, ∀ ch ∈ w, isSpaceCharP ch = false) →
    (∀ w ∈ C, ∀ ch ∈ w, isSpaceCharP ch = false) →
    C ≠ [] → matchAltX A u = .eoi → matchAltX C u = .ok r →
    prefRelB C A = true := by
  induction C with
  | nil => intro A u r _ _ hCne _ _; exact absurd rfl hCne
  | cons c1 C' ih =>
    intro A u r hAns hCns _ hA hC
    cases A with
    | nil => cases hA
    | cons a1 A' =>
      rw [matchAltX_cons] at hA hC
      cases hmc : matchWordX c1 u with
      | hard => rw [hmc] at hC; cases hC
      | eoi => rw [hmc] at hC; cases hC
      | ok s1 =>
        rw [hmc] at hC
        dsimp only at hC
        have hu1 : u = c1 ++ s1 := (mw_ok_iff _ _ _).1 hmc
        cases hma : matchWordX a1 u with
        | hard => rw [hma] at hA; cases hA
        | eoi =>
          obtain ⟨ext, hext, haw⟩ := mw_eoi_exists a1 u hma
          cases C' with
          | nil =>
            rw [prefRelB_one]
            have hpre : c1 <+: a1 :=
              ⟨s1 ++ ext, by rw [haw, hu1]; simp [List.append_assoc]⟩
            have hne : c1 ≠ a1 := by
              intro he
              subst he
              have hlen := congrArg List.length haw
              rw [hu1] at hlen
              simp only [List.length_append] at hlen
              exact hext (List.length_eq_zero.1 (by omega))
            rw [ List.isPrefixOf_iff_prefix.2 hpre, beq_eq_false_iff_ne.2 hne]
            simp
          | cons c2 C'' =>
            cases hs1 : s1 with
            | nil => rw [hs1] at hC; cases hC
            | cons d s1' =>
              have hd : isSpaceCharP d = false := by
                apply hAns a1 (by simp)
                rw [haw, hu1, hs1]
                simp
              rw [hs1] at hC
              rw [show matchSpacesX (d :: s1') = .hard from by
                simp [matchSpacesX, hd]] at hC
              cases hC
        | ok t1 =>
          rw [hma] at hA
          dsimp only at hA
          have hu2 : u = a1 ++ t1 := (mw_ok_iff _ _ _).1 hma
          have heq : c1 ++ s1 = a1 ++ t1 := by rw [← hu1, ← hu2]
          by_cases hca : c1 = a1
          · subst hca
            have hst : s1 = t1 := List.append_cancel_left heq
            subst hst
            cases A' with
            | nil => cases hA
            | cons a2 A'' =>
              cases C' with
              | nil =>
                rw [prefRelB_one]
                simp [ List.isPrefixOf_iff_prefix]
              | cons c2 C'' =>
                cases hsp : matchSpacesX s1 with
                | hard => rw [hsp] at hC; cases hC
                | eoi => rw [hsp] at hC; cases hC
                | ok t2 =>
                  rw [hsp] at hC hA
                  dsimp only at hC hA
                  have hrel : prefRelB (c2 :: C'') (a2 :: A'') = true := by
                    apply ih (a2 :: A'') t2 r
                    · intro w hw; exact hAns w (by simp [hw])
                    · intro w hw; exact hCns w (by simp [hw])
                    · simp
                    · exact hA
                    · exact hC
                  rw [prefRelB_two]
                  simp [hrel]
          · rcases List.append_eq_append_iff.1 heq with ⟨e, hae, hse⟩ | ⟨e, hce, hte⟩
            · cases he : e with
              | nil => exact absurd (by rw [hae, he]; simp) hca
              | cons d e' =>
                have hd : isSpaceCharP d = false := by
                  apply hAns a1 (by simp)
                  rw [hae, he]
                  simp
                cases C' with
                | nil =>
                  rw [prefRelB_one]
                  rw [ List.isPrefixOf_iff_prefix.2 ⟨e, hae.symm⟩,
                    beq_eq_false_iff_ne.2 hca]
                  simp
                | cons c2 C'' =>
                  rw [hse, he] at hC
                  rw [show matchSpacesX ((d :: e') ++ t1) = .hard from by
                    simp [matchSpacesX, hd]] at hC
                  cases hC
            · cases he : e with
              | nil => exact absurd (by rw [hce, he]; simp) hca
              | cons d e' =>
                have hd : isSpaceCharP d = false := by
                  apply hCns c1 (by simp)
                  rw [hce, he]
                  simp
                cases A' with
                | nil => cases hA
                | cons a2 A'' =>
                  rw [hte, he] at hA
                  rw [show matchSpacesX ((d :: e') ++ s1) = .hard from by
                    simp [matchSpacesX, hd]] at hA
                  cases hA

/-! ## C8 machinery, layer 4: no match can start inside an exhausted
alternative -/

/-- Interior word cuts are suffix alternatives. -/
theorem innerSuffixAlts_mem_cut (w : List Char) (ws : List (List Char)) (q : ℕ)
    (h1 : 1 ≤ q) (h2 : q < w.length) :
    (w.drop q :: ws) ∈ innerSuffixAlts (w :: ws) := by
  simp only [innerSuffixAlts, List.mem_append]
  left; left
  simp only [List.mem_filterMap, List.mem_range]
  exact ⟨q, h2, by rw [if_pos h1]⟩

/-- The word-level tail is a suffix alternative. -/
theorem innerSuffixAlts_mem_tail (w w2 : List Char) (ws' : List (List Char)) :
    (w2 :: ws') ∈ innerSuffixAlts (w :: w2 :: ws') := by
  simp only [innerSuffixAlts, List.mem_append]
  left; right
  simp

/-- Suffix alternatives of the tail are suffix alternatives. -/
theorem innerSuffixAlts_mem_rec (w : List Char) (ws As : List (List Char))
    (h : As ∈ innerSuffixAlts ws) : As ∈ innerSuffixAlts (w :: ws) := by
  simp only [innerSuffixAlts, List.mem_append]
  right
  exact h

/-- Suffix alternatives inherit space-free words. -/
theorem innerSuffixAlts_chars (A : List (List Char))
    (hA : ∀ w ∈ A, ∀ ch ∈ w, isSpaceCharP ch = false) :
    ∀ As ∈ innerSuffixAlts A, ∀ w ∈ As, ∀ ch ∈ w, isSpaceCharP ch = false := by
  induction A with
  | nil => intro As hAs; cases hAs
  | cons v ws ih =>
    intro As hAs
    simp only [innerSuffixAlts, List.mem_append] at hAs
    rcases hAs with (hcut | htail) | hrec
    · simp only [List.mem_filterMap, List.mem_range] at hcut
      obtain ⟨q, hq, hqe⟩ := hcut
      by_cases h1q : 1 ≤ q
      · rw [if_pos h1q] at hqe
        injection hqe with hqe
        subst hqe
        intro w hw
        rcases List.mem_cons.1 hw with rfl | hw'
        · intro ch hch
          exact hA v (by simp) ch (List.mem_of_mem_drop hch)
        · exact hA w (by simp [hw'])
      · rw [if_neg h1q] at hqe; cases hqe
    · by_cases hwse : ws.isEmpty
      · rw [if_pos hwse] at htail; cases htail
      · rw [if_neg hwse] at htail
        have hAs2 := List.mem_singleton.1 htail
        subst hAs2
        intro w hw
        exact hA w (by simp [hw])
    · exact ih (fun w hw => hA w (by simp [hw])) As hrec

/-- Every position strictly inside a text on which an alternative runs
off the end is either a space character or the start of a suffix
alternative that also runs off the end. -/
theorem alt_eoi_drop (A : List (List Char)) : ∀ (u : List Char),
    matchAltX A u = .eoi → ∀ i, 1 ≤ i → i < u.length →
    (∃ d v, u.drop i = d :: v ∧ isSpaceCharP d = true) ∨
    (∃ As ∈ innerSuffixAlts A, matchAltX As (u.drop i) = .eoi) := by
  induction A with
  | nil => intro u h; cases h
  | cons w ws ih =>
    intro u h i h1 h2
    rw [matchAltX_cons] at h
    cases hmw : matchWordX w u with
    | hard => rw [hmw] at h; cases h
    | eoi =>
      obtain ⟨ext, hext, hw⟩ := mw_eoi_exists w u hmw
      right
      have hiw : i < w.length := by
        have := congrArg List.length hw
        simp only [List.length_append] at this
        omega
      refine ⟨w.drop i :: ws, innerSuffixAlts_mem_cut w ws i h1 hiw, ?_⟩
      rw [matchAltX_cons]
      rw [show matchWordX (w.drop i) (u.drop i) = .eoi from by
        rw [hw, List.drop_append_of_le_length (le_of_lt h2)]
        exact mw_eoi_of_extra (u.drop i) ext hext]
    | ok t1 =>
      rw [hmw] at h
      dsimp only at h
      have hu : u = w ++ t1 := (mw_ok_iff _ _ _).1 hmw
      cases ws with
      | nil => cases h
      | cons w2 ws' =>
        cases hsp : matchSpacesX t1 with
        | hard => rw [hsp] at h; cases h
        | eoi =>
          have ht1 : t1 = [] := (msp_eoi_iff t1).1 hsp
          subst ht1
          rw [List.append_nil] at hu
          subst hu
          right
          refine ⟨u.drop i :: w2 :: ws', innerSuffixAlts_mem_cut u _ i h1 h2, ?_⟩
          rw [matchAltX_cons]
          rw [show matchWordX (u.drop i) (u.drop i) = .ok [] from
            (mw_ok_iff _ _ _).2 (by simp)]
          dsimp only
          rw [hsp]
        | ok t2 =>
          rw [hsp] at h
          dsimp only at h
          obtain ⟨sp, ht1, hspne, hspc, hbd⟩ := msp_ok_exists t1 t2 hsp
          subst ht1
          by_cases hz1 : i < w.length
          · right
            refine ⟨w.drop i :: w2 :: ws', innerSuffixAlts_mem_cut w _ i h1 hz1, ?_⟩
            rw [matchAltX_cons]
            rw [show matchWordX (w.drop i) (u.drop i) = .ok (sp ++ t2) from
              (mw_ok_iff _ _ _).2 (by
                rw [hu, List.drop_append_of_le_length (le_of_lt hz1)])]
            dsimp only
            rw [show matchSpacesX (sp ++ t2) = .ok t2 from
              msp_of_run sp t2 hspne hspc hbd]
            dsimp only
            exact h
          · by_cases hz2 : i < w.length + sp.length
            · left
              obtain ⟨m, hm⟩ : ∃ m, i = w.length + m := ⟨i - w.length, by omega⟩
              have hmlt : m < sp.length := by omega
              have hdrop : u.drop i = sp.drop m ++ t2 := by
                rw [hu, hm, ← List.append_assoc, show ((w ++ sp) ++ t2).drop
                    (w.length + m) = (sp ++ t2).drop m from by
                  rw [List.append_assoc, List.drop_append]]
                rw [List.drop_append_of_le_length (le_of_lt hmlt)]
              obtain ⟨d, v, hdv⟩ : ∃ d v, sp.drop m = d :: v := by
                cases hsd : sp.drop m with
                | nil =>
                  exfalso
                  have := congrArg List.length hsd
                  simp only [List.length_drop, List.length_nil] at this
                  omega
                | cons d v => exact ⟨d, v, rfl⟩
              refine ⟨d, v ++ t2, by rw [hdrop, hdv]; rfl, ?_⟩
              apply hspc d
              apply List.mem_of_mem_drop (n := m)
              rw [hdv]
              simp
            · have hge : w.length + sp.length ≤ i := le_of_not_lt hz2
              obtain ⟨j, hj⟩ : ∃ j, i = (w.length + sp.length) + j :=
                ⟨i - (w.length + sp.length), by omega⟩
              have hjlt : j < t2.length := by
                have hlen := congrArg List.length hu
                simp only [List.length_append] at hlen
                omega
              have hdrop : u.drop i = t2.drop j := by
                rw [hu, hj, show w.length + sp.length + j
                    = w.length + (sp.length + j) from by omega,
                  List.drop_append, List.drop_append]
              rcases Nat.eq_zero_or_pos j with hj0 | hjpos
              · subst hj0
                right
                refine ⟨w2 :: ws', innerSuffixAlts_mem_tail w w2 ws', ?_⟩
                rw [hdrop, List.drop_zero]
                exact h
              · rcases ih t2 h j hjpos hjlt with hL | ⟨As, hAs, hAse⟩
                · left; rw [hdrop]; exact hL
                · right
                  exact ⟨As, innerSuffixAlts_mem_rec w _ As hAs,
                    by rw [hdrop]; exact hAse⟩

/-- No alternative with space-free nonempty words matches a text that
starts with a space character. -/
theorem alt_not_ok_of_space (C : List (List Char)) (hC : altWFB C = true)
    (d : Char) (hd : isSpaceCharP d = true) (v : List Char) :
    matchAltX C (d :: v) = .hard := by
  obtain ⟨hCne, hw⟩ := altWFB_spec C hC
  cases C with
  | nil => exact absurd rfl hCne
  | cons w C' =>
    obtain ⟨hwne, hwc⟩ := hw w (by simp)
    cases w with
    | nil => exact absurd rfl hwne
    | cons ch w' =>
      rw [matchAltX_cons]
      rw [show matchWordX (ch :: w') (d :: v) = .hard from by
        have hne : ¬ (d = ch) := by
          intro he
          rw [he, hwc ch (by simp)] at hd
          cases hd
        simp only [matchWordX]
        rw [if_neg hne]]

/-- If no alternative matches, `firstOkAlt` fails. -/
theorem firstOkAlt_eq_none_of (p : List (List (List Char))) (u : List Char)
    (h : ∀ C ∈ p, ∀ r, matchAltX C u ≠ .ok r) : firstOkAlt p u = none := by
  induction p with
  | nil => rfl
  | cons a as ih =>
    simp only [firstOkAlt]
    cases ha : matchAltX a u with
    | ok r => exact absurd ha (h a (by simp) r)
    | hard => exact ih fun C hC r => h C (by simp [hC]) r
    | eoi => exact ih fun C hC r => h C (by simp [hC]) r

/-- For a clean pattern, once some alternative has consumed the whole
text and run off the end, no alternative of the pattern matches at any
interior position of that text. -/
theorem eoi_no_inner (p : List (List (List Char)))
    (hWF : patWFB p = true) (hclean : cleanB p = true)
    (B : List (List Char)) (hB : B ∈ p) (u : List Char)
    (h : matchAltX B u = .eoi) (i : ℕ) (h1 : 1 ≤ i) (h2 : i < u.length) :
    firstOkAlt p (u.drop i) = none := by
  apply firstOkAlt_eq_none_of
  intro C hC r hCr
  have hWFa : ∀ A ∈ p, altWFB A = true := by
    simp only [patWFB, List.all_eq_true] at hWF
    exact hWF
  rcases alt_eoi_drop B u h i h1 h2 with ⟨d, v, hdv, hd⟩ | ⟨As, hAs, hAse⟩
  · rw [hdv, alt_not_ok_of_space C (hWFa C hC) d hd v] at hCr
    cases hCr
  · have hCwf := altWFB_spec C (hWFa C hC)
    have hBwf := altWFB_spec B (hWFa B hB)
    have hAsns : ∀ w ∈ As, ∀ ch ∈ w, isSpaceCharP ch = false :=
      innerSuffixAlts_chars B (fun w hw => (hBwf.2 w hw).2) As hAs
    have hrel : prefRelB C As = true :=
      align C As (u.drop i) r hAsns (fun w hw => (hCwf.2 w hw).2) hCwf.1 hAse hCr
    have hfalse : prefRelB C As = false := by
      simp only [cleanB, List.all_eq_true, Bool.not_eq_true'] at hclean
      exact hclean B hB As hAs C hC
    rw [hrel] at hfalse
    cases hfalse

/-! ## C8 machinery, layer 5: scan-count monotonicity under append -/

/-- With no later alternative `prefRelB`-related to an earlier one
(`pairsOK`), the first successful alternative is stable under appending
text: the same alternative still wins, with the suffix carried along. -/
theorem firstOk_stable (p : List (List (List Char)))
    (hWF : ∀ A ∈ p, altWFB A = true) (hpairs : pairsOK p = true)
    (u s rem : List Char) (h : firstOkAlt p u = some rem) :
    firstOkAlt p (u ++ s) = some (rem ++ s) := by
  induction p with
  | nil => cases h
  | cons a as ih =>
    have hpa : (as.all fun b => !prefRelB b a) = true ∧ pairsOK as = true := by
      have hp2 : pairsOK (a :: as)
          = ((as.all fun b => !prefRelB b a) && pairsOK as) := rfl
      rw [hp2, Bool.and_eq_true] at hpairs
      exact hpairs
    have hawf := altWFB_spec a (hWF a (by simp))
    simp only [firstOkAlt] at h ⊢
    cases ha : matchAltX a u with
    | ok r =>
      rw [ha] at h
      dsimp only at h
      injection h with h1
      rw [alt_ok_stable a (fun w hw => (hawf.2 w hw).1) u s r ha]
      dsimp only
      rw [h1]
    | hard =>
      rw [ha] at h
      rw [alt_hard_stable a (fun w hw => (hawf.2 w hw).1) u s ha]
      exact ih (fun A hA => hWF A (by simp [hA])) hpa.2 h
    | eoi =>
      rw [ha] at h
      obtain ⟨B, hB, hBok⟩ := firstOkAlt_mem as u rem h
      have hBwf := altWFB_spec B (hWF B (by simp [hB]))
      have hrel : prefRelB B a = true :=
        align B a u rem (fun w hw => (hawf.2 w hw).2)
          (fun w hw => (hBwf.2 w hw).2) hBwf.1 ha hBok
      have hfalse : prefRelB B a = false := by
        have := hpa.1
        simp only [List.all_eq_true, Bool.not_eq_true'] at this
        exact this B hB
      rw [hrel] at hfalse
      cases hfalse

/-- If no nonempty suffix of the text admits a match, the scan counts
zero, whatever the boundary state. -/
theorem scanCount_zero (p : List (List (List Char))) : ∀ (t : List Char),
    (∀ i, i < t.length → firstOkAlt p (t.drop i) = none) →
    ∀ prev, scanCount p prev t = 0 := by
  intro t
  induction t with
  | nil => intro _ _; exact scanCount_nil p _
  | cons c rest ih =>
    intro h prev
    rw [scanCount_cons]
    have h0 : firstOkAlt p (c :: rest) = none := by
      have := h 0 (by simp)
      simpa using this
    rw [show (if prev ≠ isWordCharP c then firstOkAlt p (c :: rest) else none)
        = none from by split_ifs <;> simp [h0]]
    exact ih (fun i hi => by
      have := h (i + 1) (by simpa using Nat.succ_lt_succ hi)
      simpa using this) (isWordCharP c)

/-- Fuelled form of scan-count monotonicity. -/
theorem scanCount_mono_aux (p : List (List (List Char)))
    (hWF : patWFB p = true) (hpairs : pairsOK p = true)
    (hclean : cleanB p = true) (s : List Char) :
    ∀ (n : ℕ) (t : List Char) (prev : Bool), t.length ≤ n →
    scanCount p prev t ≤ scanCount p prev (t ++ s) := by
  have hWFa : ∀ A ∈ p, altWFB A = true := by
    simp only [patWFB, List.all_eq_true] at hWF
    exact hWF
  intro n
  induction n with
  | zero =>
    intro t prev ht
    have ht0 : t = [] := List.length_eq_zero.1 (Nat.le_zero.1 ht)
    subst ht0
    simp [scanCount_nil]
  | succ n ihn =>
    intro t prev ht
    cases t with
    | nil => simp [scanCount_nil]
    | cons c rest =>
      rw [List.cons_append, scanCount_cons, scanCount_cons]
      by_cases hb : prev ≠ isWordCharP c
      · rw [if_pos hb, if_pos hb]
        cases hf : firstOkAlt p (c :: rest) with
        | some rem =>
          have hstab : firstOkAlt p (c :: (rest ++ s)) = some (rem ++ s) := by
            rw [← List.cons_append]
            exact firstOk_stable p hWFa hpairs (c :: rest) s rem hf
          rw [hstab]
          dsimp only
          obtain ⟨B, hB, hBok⟩ := firstOkAlt_mem p (c :: rest) rem hf
          have hBwf := altWFB_spec B (hWFa B hB)
          have hlt : rem.length < (c :: rest).length := by
            cases hBc : B with
            | nil => exact absurd hBc hBwf.1
            | cons w ws =>
              exact alt_ok_lt w ws (c :: rest) rem
                ((hBwf.2 w (by simp [hBc])).1) (hBc ▸ hBok)
          have hklen : (c :: (rest ++ s)).length - (rem ++ s).length
              = (c :: rest).length - rem.length := by
            simp only [List.length_cons, List.length_append]
            omega
          rw [hklen]
          have hk1 : max 1 ((c :: rest).length - rem.length)
              = (c :: rest).length - rem.length := by omega
          have hkle : max 1 ((c :: rest).length - rem.length)
              ≤ (c :: rest).length := by omega
          have htake : (c :: (rest ++ s)).take
                (max 1 ((c :: rest).length - rem.length))
              = (c :: rest).take (max 1 ((c :: rest).length - rem.length)) := by
            rw [← List.cons_append, List.take_append_of_le_length hkle]
          have hdrop : (c :: (rest ++ s)).drop
                (max 1 ((c :: rest).length - rem.length))
              = (c :: rest).drop (max 1 ((c :: rest).length - rem.length)) ++ s := by
            rw [← List.cons_append, List.drop_append_of_le_length hkle]
          rw [htake, hdrop]
          apply Nat.add_le_add_left
          apply ihn
          simp only [List.length_drop]
          simp only [List.length_cons] at ht ⊢
          omega
        | none =>
          cases hf2 : firstOkAlt p (c :: (rest ++ s)) with
          | none =>
            dsimp only
            exact ihn rest (isWordCharP c)
              (by simp only [List.length_cons] at ht; omega)
          | some rem2 =>
            dsimp only
            have hzero : scanCount p (isWordCharP c) rest = 0 := by
              obtain ⟨B, hB, hBok⟩ := firstOkAlt_mem p (c :: (rest ++ s)) rem2 hf2
              have hBwf := altWFB_spec B (hWFa B hB)
              have hBeoi : matchAltX B (c :: rest) = .eoi := by
                cases hcase : matchAltX B (c :: rest) with
                | ok r0 => exact absurd hcase (firstOkAlt_none p (c :: rest) hf B hB r0)
                | hard =>
                  exfalso
                  have hh := alt_hard_stable B (fun w hw => (hBwf.2 w hw).1)
                    (c :: rest) s hcase
                  rw [List.cons_append, hBok] at hh
                  cases hh
                | eoi => rfl
              apply scanCount_zero
              intro i hi
              have hnone := eoi_no_inner p hWF hclean B hB (c :: rest) hBeoi (i + 1)
                (by omega) (by simp only [List.length_cons]; omega)
              simpa using hnone
            rw [hzero]
            exact Nat.zero_le _
      · rw [if_neg hb, if_neg hb]
        dsimp only
        exact ihn rest (isWordCharP c)
          (by simp only [List.length_cons] at ht; omega)

/-- Scan-count monotonicity: for a well-formed, prefix-free, clean
pattern, appending text never decreases the number of `finditer`
matches. -/
theorem scanCount_mono (p : List (List (List Char)))
    (hWF : patWFB p = true) (hpairs : pairsOK p = true)
    (hclean : cleanB p = true) (prev : Bool) (t s : List Char) :
    scanCount p prev t ≤ scanCount p prev (t ++ s) :=
  scanCount_mono_aux p hWF hpairs hclean s t.length t prev le_rfl

/-- The five help-seeking patterns are well-formed, prefix-free and
clean (checked by evaluation). -/
theorem helpPatterns_conds :
    (helpSeekingPatterns.all fun p => patWFB p && pairsOK p && cleanB p) = true := by
  decide

/-- The five answer-receiving patterns are well-formed, prefix-free and
clean (checked by evaluation). -/
theorem answerPatterns_conds :
    (answerPatterns.all fun p => patWFB p && pairsOK p && cleanB p) = true := by
  decide

/-- The help-seeking count of a non-empty transcription, unfolded. -/
theorem analyze_content_help_eq (t : List Char) (h : t ≠ []) :
    (analyze_content t).help_seeking_phrases =
      suspiciousPhrases.countP
          (fun ph => decide ((ph.map lowerChar) <:+: t.map lowerChar)) +
        (helpSeekingPatterns.map (fun p => scanCount p false (t.map lowerChar))).sum := by
  simp only [analyze_content]
  rw [if_neg (show ¬ t.isEmpty = true from by simpa [List.isEmpty_iff] using h)]

/-- The answer-receiving count of a non-empty transcription, unfolded. -/
theorem analyze_content_answer_eq (t : List Char) (h : t ≠ []) :
    (analyze_content t).answer_receiving_phrases =
      (answerPatterns.map (fun p => scanCount p false (t.map lowerChar))).sum := by
  simp only [analyze_content]
  rw [if_neg (show ¬ t.isEmpty = true from by simpa [List.isEmpty_iff] using h)]

/-- Monotonicity of the help-seeking count under appended text. -/
theorem analyze_content_help_mono (t s : List Char) :
    (analyze_content t).help_seeking_phrases
      ≤ (analyze_content (t ++ s)).help_seeking_phrases := by
  by_cases ht : t = []
  · subst ht
    exact Nat.zero_le _
  · have hts : t ++ s ≠ [] := fun hh => ht (List.append_eq_nil.1 hh).1
    rw [analyze_content_help_eq t ht, analyze_content_help_eq (t ++ s) hts,
      List.map_append]
    apply Nat.add_le_add
    · apply List.countP_mono_left
      intro ph _ hmatch
      simp only [decide_eq_true_eq] at hmatch ⊢
      exact hmatch.trans ⟨[], s.map lowerChar, by simp⟩
    · apply List.sum_le_sum
      intro p hp
      have hc : (patWFB p && pairsOK p && cleanB p) = true := by
        have hall := helpPatterns_conds
        simp only [List.all_eq_true] at hall
        exact hall p hp
      simp only [Bool.and_eq_true] at hc
      exact scanCount_mono p hc.1.1 hc.1.2 hc.2 false _ _

/-- Monotonicity of the answer-receiving count under appended text. -/
theorem analyze_content_answer_mono (t s : List Char) :
    (analyze_content t).answer_receiving_phrases
      ≤ (analyze_content (t ++ s)).answer_receiving_phrases := by
  by_cases ht : t = []
  · subst ht
    exact Nat.zero_le _
  · have hts : t ++ s ≠ [] := fun hh => ht (List.append_eq_nil.1 hh).1
    rw [analyze_content_answer_eq t ht, analyze_content_answer_eq (t ++ s) hts,
      List.map_append]
    apply List.sum_le_sum
    intro p hp
    have hc : (patWFB p && pairsOK p && cleanB p) = true := by
      have hall := answerPatterns_conds
      simp only [List.all_eq_true] at hall
      exact hall p hp
    simp only [Bool.and_eq_true] at hc
    exact scanCount_mono p hc.1.1 hc.1.2 hc.2 false _ _

/-- **C8.**  `analyze_content` is deterministic — it is a pure function
of the transcription, so two runs on the same text give identical
results — and appending any text `s` to a transcription `t` never
decreases the `help_seeking_phrases` or `answer_receiving_phrases`
counts. -/
theorem c8_content_deterministic_and_monotone (t s : List Char) :
    analyze_content t = analyze_content t ∧
    (analyze_content t).help_seeking_phrases
      ≤ (analyze_content (t ++ s)).help_seeking_phrases ∧
    (analyze_content t).answer_receiving_phrases
      ≤ (analyze_content (t ++ s)).answer_receiving_phrases :=
  ⟨rfl, analyze_content_help_mono t s, analyze_content_answer_mono t s⟩

end VoiceIntegrity
